import Mathlib

/-!
Verification of the move-decision engine in `scripts/chess_engine.py`.

The chess rules themselves (legal-move enumeration, move application,
check/checkmate detection, SAN notation, FEN export) are delegated by the
program to the external `python-chess` library — the "Rules Oracle" of the
design document, assumed correct and specified only at its interface.  We
therefore embed the engine parametrically over an abstract `Oracle` record
whose fields are exactly the library entry points the engine calls.

The python `Board` object is a single mutable resource manipulated through
`push`/`pop` (a move stack).  We embed it as `BoardState`: a base position
plus the explicit stack of pushed moves; `push` appends to the stack and
`pop` drops the last entry, exactly as in `python-chess`.  Every engine
method that mutates the board is translated in explicit state-passing style
(`BoardState → result × BoardState`), so that the "board restored on every
exit path" invariant is a real theorem about the translation, not an
artifact of functional programming.
-/

/-- Chess piece kinds, mirroring `chess.PAWN … chess.KING`. -/
inductive PieceType where
  | pawn
  | knight
  | bishop
  | rook
  | queen
  | king
deriving DecidableEq, Repr

/-- A piece as `python-chess` reports it: a kind and a color
(`color = true` is White, as in `chess.WHITE`). -/
structure Piece where
  pieceType : PieceType
  color : Bool
deriving DecidableEq, Repr

/-- A move as the engine sees it: `chess.Move` projections `from_square`,
`to_square` (squares `0 = a1 … 63 = h8`) and the optional promotion piece.
The engine never builds moves itself; they come from the Oracle's
enumerator. -/
structure Move where
  fromSq : Nat
  toSq : Nat
  promo : Option PieceType := none
deriving DecidableEq, Repr

/-- The Rules Oracle: the `python-chess` operations the engine calls,
abstracted as total functions on an opaque position type `P`.
`legalMoves` is `list(board.legal_moves)` (enumeration order matters),
`push` is move application, the predicates are the corresponding
`board.is_*` queries on the position, `pieceAt` is `board.piece_at`,
`attacks` is `list(board.attacks(sq))`, `san`/`parseSan` are the notation
conversions, `fenPlacement` is the first (piece placement) field of
`board.fen()`, and `turn` is `board.turn`.  `isEnPassant` and
`capturedPieceType` describe which piece, if any, a move captures; the
engine never calls them, they are the rules-level ground truth used to
state capture claims (see `CaptureCoherent`). -/
structure Oracle (P : Type) where
  legalMoves : P → List Move
  push : P → Move → P
  isCheckmate : P → Bool
  isStalemate : P → Bool
  isInsufficientMaterial : P → Bool
  isCheck : P → Bool
  isGameOver : P → Bool
  isCapture : P → Move → Bool
  pieceAt : P → Nat → Option Piece
  attacks : P → Nat → List Nat
  san : P → Move → String
  parseSan : P → String → Option Move
  fenPlacement : P → String
  turn : P → Bool
  isEnPassant : P → Move → Bool
  capturedPieceType : P → Move → Option PieceType

/-- The shared mutable board: the position the `ChessEngine` was
constructed with plus the current `board.move_stack`. -/
structure BoardState (P : Type) where
  base : P
  stack : List Move
deriving DecidableEq

/-- Python `board.push(move)`: append to the move stack. -/
def pushB {P : Type} (s : BoardState P) (m : Move) : BoardState P :=
  ⟨s.base, s.stack ++ [m]⟩

/-- Python `board.pop()`: drop the last pushed move. -/
def popB {P : Type} (s : BoardState P) : BoardState P :=
  ⟨s.base, s.stack.dropLast⟩

/-- The position the board currently denotes: the base position with the
stacked moves applied in order. -/
def cur {P : Type} (O : Oracle P) (s : BoardState P) : P :=
  s.stack.foldl O.push s.base

/-- Python `float` values reachable in the engine's minimax: an integer
score, `float('-inf')` or `float('inf')`. -/
inductive XInt where
  | negInf
  | fin : Int → XInt
  | posInf
deriving DecidableEq, Repr

/-- Python `<=` on these values. -/
def XInt.le : XInt → XInt → Bool
  | .negInf, _ => true
  | _, .posInf => true
  | .fin a, .fin b => a ≤ b
  | .posInf, .fin _ => false
  | .posInf, .negInf => false
  | .fin _, .negInf => false

/-- Python `<` on these values. -/
def XInt.lt : XInt → XInt → Bool
  | _, .negInf => false
  | .negInf, _ => true
  | .fin a, .fin b => a < b
  | .fin _, .posInf => true
  | .posInf, _ => false

/-- Python `max` on these values. -/
def XInt.max (a b : XInt) : XInt := if XInt.le a b then b else a

/-- Python `min` on these values. -/
def XInt.min (a b : XInt) : XInt := if XInt.le a b then a else b

/-- Python subtraction `n - x` of an extended value from an integer
(the root scoring line `evaluate_position() - minimax_helper(...)`). -/
def finSub (n : Int) : XInt → XInt
  | .negInf => .posInf
  | .fin v => .fin (n - v)
  | .posInf => .negInf

/-- A move selection as returned by one of the engine's phases:
the legal move the choice was produced from, the SAN string the code
computed for it, and the full returned message. -/
structure Choice where
  move : Move
  sanStr : String
  msg : String
deriving DecidableEq, Repr

/-- The result of `_get_strategic_move`: either the pair
`(None, "No legal moves available")` or a `(move_san, message)` pair. -/
inductive StrategicOutcome where
  | noMove
  | played : Choice → StrategicOutcome
deriving DecidableEq, Repr

/-! ## Engine definitions, translated from `scripts/chess_engine.py` -/

/-- Engine `_evaluate_king_safety` (lines 438-442): the stub; `safety = 0` and no
further implementation, so it returns the constant `0` whatever the
position is. -/
def evaluateKingSafety {P : Type} (O : Oracle P) (p : P) : Int :=
  let _ := O
  let _ := p
  0

/-- Engine `_evaluate_piece_mobility` (lines 444-447): the number of legal moves
of the side to move. -/
def evaluatePieceMobility {P : Type} (O : Oracle P) (p : P) : Int :=
  Int.ofNat (O.legalMoves p).length

/-- The centipawn table of `_evaluate_position` (lines 422-423). -/
def pieceValues : PieceType → Int
  | .pawn => 100
  | .knight => 320
  | .bishop => 330
  | .rook => 500
  | .queen => 900
  | .king => 0

/-- Engine `_evaluate_position` (lines 414-436): ±10000 on checkmate (sign from
`board.turn`), 0 on stalemate or insufficient material, otherwise signed
material over the 64 squares plus `20 × kingSafety + 10 × mobility`. -/
def evaluatePosition {P : Type} (O : Oracle P) (p : P) : Int :=
  if O.isCheckmate p then (if O.turn p then -10000 else 10000)
  else if O.isStalemate p || O.isInsufficientMaterial p then 0
  else
    let material := (List.range 64).foldl
      (fun acc sq =>
        match O.pieceAt p sq with
        | some pc => acc + (if pc.color then pieceValues pc.pieceType else -(pieceValues pc.pieceType))
        | none => acc) 0
    material + evaluateKingSafety O p * 20 + evaluatePieceMobility O p * 10

/-- The capture table of `_calculate_material_gain` (lines 456-457);
`dict.get(piece_type, 0)` yields 0 for the king, which is absent from the
table. -/
def pieceValuesCapture : PieceType → Int
  | .pawn => 1
  | .knight => 3
  | .bishop => 3
  | .rook => 5
  | .queen => 9
  | .king => 0

/-- Engine `_calculate_material_gain` (lines 449-459): 0 for non-captures,
otherwise the table value of the piece found on the destination square
(`board.piece_at(move.to_square)`), and 0 when that square is empty. -/
def calculateMaterialGain {P : Type} (O : Oracle P) (p : P) (mv : Move) : Int :=
  if O.isCapture p mv then
    match O.pieceAt p mv.toSq with
    | some pc => pieceValuesCapture pc.pieceType
    | none => 0
  else 0

/-- Engine `_piece_square_value` (lines 461-475).  The float expression
`int(10 - (|file − 3.5| + |rank − 3.5|) * 2)` is integer-valued and equals
`10 − (|2·file − 7| + |2·rank − 7|)` exactly. -/
def pieceSquareValue (piece : Option Piece) (square : Nat) : Int :=
  match piece with
  | none => 0
  | some pc =>
    let rank : Int := Int.ofNat (square / 8)
    let file : Int := Int.ofNat (square % 8)
    match pc.pieceType with
    | .pawn => if pc.color then rank * 5 else (7 - rank) * 5
    | .knight => 10 - (((2 * file - 7).natAbs : Int) + ((2 * rank - 7).natAbs : Int))
    | .bishop => 10 - (((2 * file - 7).natAbs : Int) + ((2 * rank - 7).natAbs : Int))
    | _ => 0

/-- Stable insertion of one keyed element into a descending-by-key list:
the element goes after every strictly larger key and before equal ones. -/
def insertDesc {α : Type} (x : α × Int) : List (α × Int) → List (α × Int)
  | [] => [x]
  | y :: ys => if x.2 < y.2 then y :: insertDesc x ys else x :: y :: ys

/-- Python's `list.sort(key=lambda x: x[1], reverse=True)`: a *stable*
sort into descending key order (Timsort is stable, so elements with equal
keys keep their original relative order; any stable sort is
observationally the same). -/
def pySortRev {α : Type} : List (α × Int) → List (α × Int)
  | [] => []
  | x :: xs => insertDesc x (pySortRev xs)

/-- Sub-check 1 of `_find_critical_moves` (lines 156-163): push each legal
move in enumeration order; on checkmate, compute the SAN string (on the
*pushed* board, as the source does), pop and return. -/
def immediateMateLoop {P : Type} (O : Oracle P) :
    List Move → BoardState P → Option Choice × BoardState P
  | [], s => (none, s)
  | m :: ms, s =>
      let s1 := pushB s m
      if O.isCheckmate (cur O s1) then
        let sanStr := O.san (cur O s1) m
        (some ⟨m, sanStr, "AI plays " ++ sanStr ++ " - Checkmate!"⟩, popB s1)
      else
        immediateMateLoop O ms (popB s1)

/-- Innermost loop of sub-check 2 (lines 173-180): does some own follow-up
move deliver checkmate? -/
def hasMateLoop {P : Type} (O : Oracle P) :
    List Move → BoardState P → Bool × BoardState P
  | [], s => (false, s)
  | m :: ms, s =>
      let s1 := pushB s m
      if O.isCheckmate (cur O s1) then (true, popB s1)
      else hasMateLoop O ms (popB s1)

/-- Middle loop of sub-check 2 (lines 169-184): `mate_in_2` stays true as
long as every opponent reply admits a mating follow-up; the loop breaks on
the first reply without one. -/
def allRepliesMatedLoop {P : Type} (O : Oracle P) :
    List Move → BoardState P → Bool × BoardState P
  | [], s => (true, s)
  | r :: rs, s =>
      let s1 := pushB s r
      let hm := hasMateLoop O (O.legalMoves (cur O s1)) s1
      let s2 := popB hm.2
      if hm.1 then allRepliesMatedLoop O rs s2 else (false, s2)

/-- Sub-check 2 of `_find_critical_moves` (lines 165-188): a candidate is
returned when `mate_in_2` survived *and* the opponent had at least one
reply (`if mate_in_2 and opponent_moves:`); the SAN string is computed
after the pop, on the original board. -/
def mateIn2Loop {P : Type} (O : Oracle P) :
    List Move → BoardState P → Option Choice × BoardState P
  | [], s => (none, s)
  | m :: ms, s =>
      let s1 := pushB s m
      let opponentMoves := O.legalMoves (cur O s1)
      let res := allRepliesMatedLoop O opponentMoves s1
      let s2 := popB res.2
      if res.1 && !opponentMoves.isEmpty then
        let sanStr := O.san (cur O s2) m
        (some ⟨m, sanStr, "AI plays " ++ sanStr ++ " - Forced mate in 2!"⟩, s2)
      else mateIn2Loop O ms s2

/-- The loop of sub-check 3 (lines 193-200): collect `(move, safety)` for
each move after which `board.is_check()` is false — i.e. the side that has
*just received* the move (the opponent) is not in check — scoring each
kept move with the king-safety stub. -/
def defenseLoop {P : Type} (O : Oracle P) :
    List Move → BoardState P → List (Move × Int) × BoardState P
  | [], s => ([], s)
  | m :: ms, s =>
      let s1 := pushB s m
      if !(O.isCheck (cur O s1)) then
        let safety := evaluateKingSafety O (cur O s1)
        let rest := defenseLoop O ms (popB s1)
        ((m, safety) :: rest.1, rest.2)
      else defenseLoop O ms (popB s1)

/-- Sub-check 3 of `_find_critical_moves` (lines 191-206), guarded by
`board.is_check()`: sort the collected defensive moves by safety
(descending, stable) and return the first, rationale `Defending!`. -/
def defenseCheck {P : Type} (O : Oracle P) (moves : List Move) (s : BoardState P) :
    Option Choice × BoardState P :=
  if O.isCheck (cur O s) then
    let dres := defenseLoop O moves s
    match pySortRev dres.1 with
    | [] => (none, dres.2)
    | (m, _) :: _ =>
        let sanStr := O.san (cur O dres.2) m
        (some ⟨m, sanStr, "AI plays " ++ sanStr ++ " - Defending!"⟩, dres.2)
  else (none, s)

/-- The `tactical_moves` list of sub-check 4 (lines 209-213): the moves
whose material gain is strictly positive, with their gains. -/
def tacticalMovesList {P : Type} (O : Oracle P) (p : P) (moves : List Move) :
    List (Move × Int) :=
  moves.filterMap (fun m =>
    let gain := calculateMaterialGain O p m
    if gain > 0 then some (m, gain) else none)

/-- Sub-check 4 of `_find_critical_moves` (lines 208-219): sort the
tactical moves by gain (descending, stable) and return the first,
rationale `Wins material!`.  No board mutation happens in this phase. -/
def materialCheck {P : Type} (O : Oracle P) (p : P) (moves : List Move) : Option Choice :=
  match pySortRev (tacticalMovesList O p moves) with
  | [] => none
  | (m, _) :: _ =>
      let sanStr := O.san p m
      some ⟨m, sanStr, "AI plays " ++ sanStr ++ " - Wins material!"⟩

/-- Engine `_find_critical_moves` (lines 153-221): the four ordered sub-checks,
first success wins. -/
def findCriticalMoves {P : Type} (O : Oracle P) (moves : List Move) (s : BoardState P) :
    Option Choice × BoardState P :=
  match immediateMateLoop O moves s with
  | (some c, s1) => (some c, s1)
  | (none, s1) =>
    match mateIn2Loop O moves s1 with
    | (some c, s2) => (some c, s2)
    | (none, s2) =>
      match defenseCheck O moves s2 with
      | (some c, s3) => (some c, s3)
      | (none, s3) => (materialCheck O (cur O s3) moves, s3)

/-- The additive score of one move in `_evaluate_positional_moves`
(lines 227-255): piece-square value, +30 on the four central squares
(`D4 D5 E4 E5` = 27, 35, 28, 36), +25 development bonus when fewer than 16
plies are on the stack, the moved piece is a knight or bishop and its
source square is one of `B1 G1 C1 F1` (1, 6, 2, 5), +50 king bonus when
fewer than 20 plies are on the stack and a king arrives on `G1` or `C1`
(6, 2), plus twice the number of squares attacked from the destination
after the move is pushed. -/
def positionalMoveScore {P : Type} (O : Oracle P) (s : BoardState P) (mv : Move) : Int :=
  let piece := O.pieceAt (cur O s) mv.fromSq
  let psq := pieceSquareValue piece mv.toSq
  let centerBonus : Int := if mv.toSq ∈ [27, 35, 28, 36] then 30 else 0
  let devBonus : Int :=
    if s.stack.length < 16 then
      match piece with
      | some pc =>
          if (pc.pieceType = PieceType.knight ∨ pc.pieceType = PieceType.bishop)
              ∧ mv.fromSq ∈ [1, 6, 2, 5] then 25 else 0
      | none => 0
    else 0
  let kingBonus : Int :=
    match piece with
    | some pc =>
        if pc.pieceType = PieceType.king ∧ s.stack.length < 20 ∧ mv.toSq ∈ [6, 2]
        then 50 else 0
    | none => 0
  let controlled : Int := Int.ofNat (O.attacks (cur O (pushB s mv)) mv.toSq).length
  psq + centerBonus + devBonus + kingBonus + controlled * 2

/-- The scoring loop of `_evaluate_positional_moves` (lines 225-257):
every legal move gets a score; the attacks query pushes the move and pops
it again (lines 252-255). -/
def positionalLoop {P : Type} (O : Oracle P) :
    List Move → BoardState P → List (Move × Int) × BoardState P
  | [], s => ([], s)
  | mv :: ms, s =>
      let score := positionalMoveScore O s mv
      let s2 := popB (pushB s mv)
      let rest := positionalLoop O ms s2
      ((mv, score) :: rest.1, rest.2)

/-- Engine `_evaluate_positional_moves` (lines 223-265): score all moves, sort
descending (stable), return the first with rationale
`Positional advantage!`; `None` only when the scored list is empty. -/
def evaluatePositionalMoves {P : Type} (O : Oracle P) (moves : List Move) (s : BoardState P) :
    Option Choice × BoardState P :=
  let res := positionalLoop O moves s
  match pySortRev res.1 with
  | [] => (none, res.2)
  | (m, _) :: _ =>
      let sanStr := O.san (cur O res.2) m
      (some ⟨m, sanStr, "AI plays " ++ sanStr ++ " - Positional advantage!"⟩, res.2)

/-- The fixed `opening_responses` table of `_get_opening_book_move`
(lines 272-279), keyed on the piece-placement field of the FEN; positions
not in the dict get the empty response list. -/
def openingResponses (placement : String) : List String :=
  if placement = "rnbqkbnr/pppppppp/8/8/4P3/8/PPPP1PPP/RNBQKBNR" then ["c5", "e5", "c6"]
  else if placement = "rnbqkbnr/pppppppp/8/8/3P4/8/PPP1PPPP/RNBQKBNR" then ["Nf6", "d5", "f5"]
  else if placement = "r1bqkbnr/pppp1ppp/2n5/4p3/2B1P3/5N2/PPPP1PPP/RNBQK2R" then ["f5", "Be7", "Nf6"]
  else []

/-- The response loop of `_get_opening_book_move` (lines 282-289): parse
each listed response; return the first that parses and is currently legal
(`parse_san` raising is `except: continue`, modelled by `none`). -/
def openingTheoryLoop {P : Type} (O : Oracle P) (p : P) (moves : List Move) :
    List String → Option Choice
  | [] => none
  | r :: rs =>
      match O.parseSan p r with
      | some mv =>
          if mv ∈ moves then some ⟨mv, r, "AI plays " ++ r ++ " - Opening theory!"⟩
          else openingTheoryLoop O p moves rs
      | none => openingTheoryLoop O p moves rs

/-- The `priority_moves` list of the generic-principles branch
(lines 294-310): central pawn advances score 40, knight moves to
`F3 C3 F6 C6` (21, 18, 45, 42) score 35, bishop moves to
`C4 F4 E2 C5 F5 E7` (26, 29, 12, 34, 37, 52) score 30. -/
def openingPriorityList {P : Type} (O : Oracle P) (p : P) (moves : List Move) :
    List (Move × Int) :=
  moves.filterMap (fun mv =>
    match O.pieceAt p mv.fromSq with
    | none => none
    | some pc =>
      match pc.pieceType with
      | .pawn => if mv.toSq ∈ [27, 35, 28, 36] then some (mv, 40) else none
      | .knight => if mv.toSq ∈ [21, 18, 45, 42] then some (mv, 35) else none
      | .bishop => if mv.toSq ∈ [26, 29, 12, 34, 37, 52] then some (mv, 30) else none
      | _ => none)

/-- Engine `_get_opening_book_move` (lines 267-318): fixed-table lookup first,
then (below 8 plies) the generic principles, else no candidate.  The board
is only read, never pushed. -/
def getOpeningBookMove {P : Type} (O : Oracle P) (moves : List Move) (s : BoardState P) :
    Option Choice × BoardState P :=
  let p := cur O s
  match openingTheoryLoop O p moves (openingResponses (O.fenPlacement p)) with
  | some c => (some c, s)
  | none =>
    if s.stack.length < 8 then
      match pySortRev (openingPriorityList O p moves) with
      | [] => (none, s)
      | (m, _) :: _ =>
          let sanStr := O.san p m
          (some ⟨m, sanStr, "AI plays " ++ sanStr ++ " - Opening principles!"⟩, s)
    else (none, s)

/-- Engine `_is_endgame` (lines 320-326): at most 12 pieces on the board, or at
most 16 with no queen of either color (`board.pieces(QUEEN, c)` modelled
as a scan of the 64 squares). -/
def isEndgame {P : Type} (O : Oracle P) (p : P) : Bool :=
  let pieceCount := ((List.range 64).filter (fun sq => (O.pieceAt p sq).isSome)).length
  pieceCount ≤ 12 ||
    (pieceCount ≤ 16 &&
      !((List.range 64).any (fun sq => decide (O.pieceAt p sq = some ⟨PieceType.queen, true⟩)) ||
        (List.range 64).any (fun sq => decide (O.pieceAt p sq = some ⟨PieceType.queen, false⟩))))

/-- The per-move score of `_get_endgame_move` (lines 332-350): king moves
score `10 × rank advancement` plus `5 × (7 − Manhattan distance from the
board center)` (the float distance is half-integral; `14 − 2·distance` is
even, so the division below is exact), pawn moves score
`15 × (7 − distance to promotion)`. -/
def endgameMoveScore {P : Type} (O : Oracle P) (p : P) (mv : Move) : Int :=
  let piece := O.pieceAt p mv.fromSq
  let rank : Int := Int.ofNat (mv.toSq / 8)
  let file : Int := Int.ofNat (mv.toSq % 8)
  let kingScore : Int :=
    match piece with
    | some pc =>
        if pc.pieceType = PieceType.king then
          let kingAdvancement := if pc.color then rank else 7 - rank
          let centerDistance2 : Int := ((2 * file - 7).natAbs : Int) + ((2 * rank - 7).natAbs : Int)
          kingAdvancement * 10 + ((14 - centerDistance2) / 2) * 5
        else 0
    | none => 0
  let pawnScore : Int :=
    match piece with
    | some pc =>
        if pc.pieceType = PieceType.pawn then
          let promotionDistance := if pc.color then 7 - rank else rank
          (7 - promotionDistance) * 15
        else 0
    | none => 0
  kingScore + pawnScore

/-- Engine `_get_endgame_move` (lines 328-358): score every move, sort descending
(stable), return the first with rationale `Endgame technique!`. -/
def getEndgameMove {P : Type} (O : Oracle P) (moves : List Move) (s : BoardState P) :
    Option Choice × BoardState P :=
  let p := cur O s
  let scored := moves.map (fun mv => (mv, endgameMoveScore O p mv))
  match pySortRev scored with
  | [] => (none, s)
  | (m, _) :: _ =>
      let sanStr := O.san p m
      (some ⟨m, sanStr, "AI plays " ++ sanStr ++ " - Endgame technique!"⟩, s)

/-- The maximizing loop of `_minimax_helper` (lines 391-401): push each of
the first-8 moves, evaluate through `step` (the recursive call at the next
depth), pop, update `max_eval` and `alpha`, break when `beta <= alpha`. -/
def abMaxLoopS {P : Type} (step : XInt → XInt → BoardState P → XInt × BoardState P) :
    List Move → XInt → XInt → XInt → BoardState P → XInt × BoardState P
  | [], _alpha, _beta, acc, s => (acc, s)
  | mv :: ms, alpha, beta, acc, s =>
      let s1 := pushB s mv
      let r := step alpha beta s1
      let s2 := popB r.2
      let acc2 := XInt.max acc r.1
      let alpha2 := XInt.max alpha r.1
      if XInt.le beta alpha2 then (acc2, s2)
      else abMaxLoopS step ms alpha2 beta acc2 s2

/-- The minimizing loop of `_minimax_helper` (lines 402-412). -/
def abMinLoopS {P : Type} (step : XInt → XInt → BoardState P → XInt × BoardState P) :
    List Move → XInt → XInt → XInt → BoardState P → XInt × BoardState P
  | [], _alpha, _beta, acc, s => (acc, s)
  | mv :: ms, alpha, beta, acc, s =>
      let s1 := pushB s mv
      let r := step alpha beta s1
      let s2 := popB r.2
      let acc2 := XInt.min acc r.1
      let beta2 := XInt.min beta r.1
      if XInt.le beta2 alpha then (acc2, s2)
      else abMinLoopS step ms alpha beta2 acc2 s2

/-- Engine `_minimax_helper` (lines 384-412): static evaluation at depth 0 or
game over, otherwise the alpha-beta loop over the first 8 enumerated legal
moves (`legal_moves[:8]`), alternating maximizing/minimizing. -/
def minimaxHelperS {P : Type} (O : Oracle P) :
    Nat → Bool → XInt → XInt → BoardState P → XInt × BoardState P
  | 0, _maxim, _alpha, _beta, s => (.fin (evaluatePosition O (cur O s)), s)
  | d + 1, maxim, alpha, beta, s =>
      if O.isGameOver (cur O s) then (.fin (evaluatePosition O (cur O s)), s)
      else
        let ms := (O.legalMoves (cur O s)).take 8
        if maxim then
          abMaxLoopS (fun a b s' => minimaxHelperS O d false a b s') ms alpha beta XInt.negInf s
        else
          abMinLoopS (fun a b s' => minimaxHelperS O d true a b s') ms alpha beta XInt.posInf s

/-- The root loop of `_minimax_evaluation` (lines 365-372): *every* legal
move is pushed and scored as `evaluate_position() − minimax_helper(depth−1,
False, −inf, inf)`; a strictly better score replaces the best move. -/
def minimaxRootLoop {P : Type} (O : Oracle P) (depth : Nat) :
    List Move → XInt → Option Move → BoardState P → (XInt × Option Move) × BoardState P
  | [], best, bm, s => ((best, bm), s)
  | mv :: ms, best, bm, s =>
      let s1 := pushB s mv
      let own := evaluatePosition O (cur O s1)
      let r := minimaxHelperS O (depth - 1) false XInt.negInf XInt.posInf s1
      let s2 := popB r.2
      let score := finSub own r.1
      if XInt.lt best score then minimaxRootLoop O depth ms score (some mv) s2
      else minimaxRootLoop O depth ms best bm s2

/-- Engine `_minimax_evaluation` (lines 360-382): run the root loop from
`best_score = −inf`; if a best move was found return it with rationale
`Deep calculation!`, otherwise fall back to `random.choice(legal_moves)`
(the uniform draw is modelled by the index `rnd % length`; `none` models
the `IndexError` that `random.choice` raises on an empty list), rationale
`Strategic!`. -/
def minimaxEvaluation {P : Type} (O : Oracle P) (moves : List Move) (depth : Nat) (rnd : Nat)
    (s : BoardState P) : Option Choice × BoardState P :=
  let r := minimaxRootLoop O depth moves XInt.negInf none s
  match r.1.2 with
  | some mv =>
      let sanStr := O.san (cur O r.2) mv
      (some ⟨mv, sanStr, "AI plays " ++ sanStr ++ " - Deep calculation!"⟩, r.2)
  | none =>
      match moves[rnd % moves.length]? with
      | some mv =>
          let sanStr := O.san (cur O r.2) mv
          (some ⟨mv, sanStr, "AI plays " ++ sanStr ++ " - Strategic!"⟩, r.2)
      | none => (none, r.2)

/-- Engine `_get_strategic_move` (lines 119-151): enumerate the legal moves once;
on an empty set return `(None, "No legal moves available")`
(`StrategicOutcome.noMove`); otherwise dispatch the five phases in order,
first candidate wins.  The opening book only runs below 12 plies, the
endgame specialist only in the endgame phase, and the minimax runs with
the default depth 3.  The final `noMove` arm models the `IndexError`
crash of `random.choice([])` and is unreachable with a non-empty move
list. -/
def getStrategicMove {P : Type} (O : Oracle P) (rnd : Nat) (s : BoardState P) :
    StrategicOutcome × BoardState P :=
  let legalMoves := O.legalMoves (cur O s)
  if legalMoves.isEmpty then (.noMove, s)
  else
    match findCriticalMoves O legalMoves s with
    | (some c, s1) => (.played c, s1)
    | (none, s1) =>
      match evaluatePositionalMoves O legalMoves s1 with
      | (some c, s2) => (.played c, s2)
      | (none, s2) =>
        let afterOpening : Option Choice × BoardState P :=
          if s2.stack.length < 12 then getOpeningBookMove O legalMoves s2
          else (none, s2)
        match afterOpening with
        | (some c, s3) => (.played c, s3)
        | (none, s3) =>
          let afterEndgame : Option Choice × BoardState P :=
            if isEndgame O (cur O s3) then getEndgameMove O legalMoves s3 else (none, s3)
          match afterEndgame with
          | (some c, s4) => (.played c, s4)
          | (none, s4) =>
            match minimaxEvaluation O legalMoves 3 rnd s4 with
            | (some c, s5) => (.played c, s5)
            | (none, s5) => (.noMove, s5)

/-! ## Statement-side definitions

Builders naming the `Choice` values the engine's branches construct, the
first-maximum selector that formalises the spec's tie-break rule, the
rules-level capture description used by claim C5, the claim-worded
variants of the positional score and of the Bounded Search, and a
ghost-instrumented copy of the search that counts the moves examined at
each node. -/

/-- The `Checkmate!` selection for move `m` from position `p`: the SAN
string is computed on the board *after* `m` was pushed, as the source
does (line 160). -/
def mateChoice {P : Type} (O : Oracle P) (p : P) (m : Move) : Choice :=
  let sanStr := O.san (O.push p m) m
  ⟨m, sanStr, "AI plays " ++ sanStr ++ " - Checkmate!"⟩

/-- The `Forced mate in 2!` selection for move `m` from position `p`
(SAN on the original board, line 187). -/
def mate2Choice {P : Type} (O : Oracle P) (p : P) (m : Move) : Choice :=
  let sanStr := O.san p m
  ⟨m, sanStr, "AI plays " ++ sanStr ++ " - Forced mate in 2!"⟩

/-- The `Defending!` selection for move `m` from position `p`. -/
def defendChoice {P : Type} (O : Oracle P) (p : P) (m : Move) : Choice :=
  let sanStr := O.san p m
  ⟨m, sanStr, "AI plays " ++ sanStr ++ " - Defending!"⟩

/-- The `Wins material!` selection for move `m` from position `p`. -/
def winsChoice {P : Type} (O : Oracle P) (p : P) (m : Move) : Choice :=
  let sanStr := O.san p m
  ⟨m, sanStr, "AI plays " ++ sanStr ++ " - Wins material!"⟩

/-- The `Positional advantage!` selection for move `m` from position `p`. -/
def posChoice {P : Type} (O : Oracle P) (p : P) (m : Move) : Choice :=
  let sanStr := O.san p m
  ⟨m, sanStr, "AI plays " ++ sanStr ++ " - Positional advantage!"⟩

/-- The spec's "select the maximum, tie-break first-maximum in enumeration
order" on a keyed list: the first element whose key is maximal. -/
def firstMaxList {α : Type} : List (α × Int) → Option (α × Int)
  | [] => none
  | x :: xs =>
      match firstMaxList xs with
      | none => some x
      | some y => if x.2 < y.2 then some y else some x

/-- The engine's mate-in-2 qualification, read off the source (lines
165-188): the opponent must have at least one reply, and every reply must
admit a mating follow-up. -/
def codeQualifiesB {P : Type} (O : Oracle P) (p : P) (m : Move) : Bool :=
  let replies := O.legalMoves (O.push p m)
  !replies.isEmpty && replies.all (fun r =>
    (O.legalMoves (O.push (O.push p m) r)).any (fun a =>
      O.isCheckmate (O.push (O.push (O.push p m) r) a)))

/-- The mate-in-2 qualification as claim C4 words it: *every* opponent
reply admits a mating follow-up (vacuously true when there are no
replies). -/
def claimQualifiesB {P : Type} (O : Oracle P) (p : P) (m : Move) : Bool :=
  (O.legalMoves (O.push p m)).all (fun r =>
    (O.legalMoves (O.push (O.push p m) r)).any (fun a =>
      O.isCheckmate (O.push (O.push (O.push p m) r) a)))

/-- The fixed table of claim C5, `{pawn:1, knight:3, bishop:3, rook:5,
queen:9}`, applied to an optional captured-piece kind (0 when nothing is
captured; a king is never capturable). -/
def specCaptureValue : Option PieceType → Int
  | some .pawn => 1
  | some .knight => 3
  | some .bishop => 3
  | some .rook => 5
  | some .queen => 9
  | some .king => 0
  | none => 0

/-- Rules-level coherence of the ghost capture fields with the oracle
queries the engine performs: `is_capture` holds exactly when some piece is
captured; for an ordinary capture the captured piece stands on the
destination square; for an en-passant capture the captured piece is a pawn
and the destination square is empty. -/
def CaptureCoherent {P : Type} (O : Oracle P) : Prop :=
  ∀ p mv,
    (O.isCapture p mv = (O.capturedPieceType p mv).isSome)
    ∧ (O.isEnPassant p mv = false →
        O.capturedPieceType p mv = (O.pieceAt p mv.toSq).map Piece.pieceType)
    ∧ (O.isEnPassant p mv = true →
        O.capturedPieceType p mv = some PieceType.pawn ∧ O.pieceAt p mv.toSq = none)

/-- The positional move score as claim C6 words it: identical to
`positionalMoveScore` except that the +25 development bonus requires the
moved knight or bishop to leave one of *its own* original starting squares
(either color), and the +50 king bonus requires the king to arrive on a
castled-position square of *its own* color. -/
def claimPositionalMoveScore {P : Type} (O : Oracle P) (s : BoardState P) (mv : Move) : Int :=
  let piece := O.pieceAt (cur O s) mv.fromSq
  let psq := pieceSquareValue piece mv.toSq
  let centerBonus : Int := if mv.toSq ∈ [27, 35, 28, 36] then 30 else 0
  let devBonus : Int :=
    if s.stack.length < 16 then
      match piece with
      | some pc =>
          if (pc.pieceType = PieceType.knight ∧ mv.fromSq ∈ (if pc.color then [1, 6] else [57, 62]))
              ∨ (pc.pieceType = PieceType.bishop ∧ mv.fromSq ∈ (if pc.color then [2, 5] else [58, 61]))
          then 25 else 0
      | none => 0
    else 0
  let kingBonus : Int :=
    match piece with
    | some pc =>
        if pc.pieceType = PieceType.king ∧ s.stack.length < 20
            ∧ mv.toSq ∈ (if pc.color then [6, 2] else [62, 58])
        then 50 else 0
    | none => 0
  let controlled : Int := Int.ofNat (O.attacks (cur O (pushB s mv)) mv.toSq).length
  psq + centerBonus + devBonus + kingBonus + controlled * 2

/-- The +25 development bonus as the amended claim words it: fewer than 16
plies on the stack, the moved piece is a knight or bishop, and the source
square is one of White's back-rank minor-piece home squares
`B1 G1 C1 F1` (1, 6, 2, 5) — for either color and regardless of which
piece type originally started there. -/
def amendedDevBonus (plies : Nat) (piece : Option Piece) (mv : Move) : Int :=
  match piece with
  | some pc =>
      if plies < 16 ∧ (pc.pieceType = PieceType.knight ∨ pc.pieceType = PieceType.bishop)
          ∧ mv.fromSq ∈ [1, 6, 2, 5]
      then 25 else 0
  | none => 0

/-- The +50 king bonus as the amended claim words it: fewer than 20 plies
on the stack, the moved piece is a king, and the destination is one of
White's castled squares `G1 C1` (6, 2) — for either color. -/
def amendedKingBonus (plies : Nat) (piece : Option Piece) (mv : Move) : Int :=
  match piece with
  | some pc =>
      if plies < 20 ∧ pc.pieceType = PieceType.king ∧ mv.toSq ∈ [6, 2]
      then 50 else 0
  | none => 0

/-- The bonus-free part of the positional score: piece-square value,
center bonus and attack count. -/
def basePositionalScore {P : Type} (O : Oracle P) (s : BoardState P) (mv : Move) : Int :=
  let piece := O.pieceAt (cur O s) mv.fromSq
  let psq := pieceSquareValue piece mv.toSq
  let centerBonus : Int := if mv.toSq ∈ [27, 35, 28, 36] then 30 else 0
  let controlled : Int := Int.ofNat (O.attacks (cur O (pushB s mv)) mv.toSq).length
  psq + centerBonus + controlled * 2

/-- The Bounded Search as claim C7 words it: identical to
`minimaxEvaluation` except that the root ply, like every other ply,
considers only the first 8 enumerated legal moves. -/
def minimaxEvaluationRootCapped8 {P : Type} (O : Oracle P) (moves : List Move) (depth : Nat)
    (rnd : Nat) (s : BoardState P) : Option Choice × BoardState P :=
  let r := minimaxRootLoop O depth (moves.take 8) XInt.negInf none s
  match r.1.2 with
  | some mv =>
      let sanStr := O.san (cur O r.2) mv
      (some ⟨mv, sanStr, "AI plays " ++ sanStr ++ " - Deep calculation!"⟩, r.2)
  | none =>
      match moves[rnd % moves.length]? with
      | some mv =>
          let sanStr := O.san (cur O r.2) mv
          (some ⟨mv, sanStr, "AI plays " ++ sanStr ++ " - Strategic!"⟩, r.2)
      | none => (none, r.2)

/-- Result of an instrumented helper call: the minimax value, the maximum
number of moves examined at any node of the call tree (`metric`), and the
final board. -/
structure IRes (P : Type) where
  value : XInt
  metric : Nat
  state : BoardState P

/-- Result of one instrumented alpha-beta loop: value, maximum child
metric, number of loop iterations actually executed, final board. -/
structure ILoopRes (P : Type) where
  value : XInt
  metric : Nat
  iters : Nat
  state : BoardState P

/-- Ghost-instrumented copy of `abMaxLoopS`: same computation, also
counting the iterations executed (the moves examined at this node). -/
def abMaxLoopI {P : Type} (step : XInt → XInt → BoardState P → IRes P) :
    List Move → XInt → XInt → XInt → BoardState P → ILoopRes P
  | [], _alpha, _beta, acc, s => ⟨acc, 0, 0, s⟩
  | mv :: ms, alpha, beta, acc, s =>
      let s1 := pushB s mv
      let r := step alpha beta s1
      let s2 := popB r.state
      let acc2 := XInt.max acc r.value
      let alpha2 := XInt.max alpha r.value
      if XInt.le beta alpha2 then ⟨acc2, r.metric, 1, s2⟩
      else
        let rest := abMaxLoopI step ms alpha2 beta acc2 s2
        ⟨rest.value, Nat.max r.metric rest.metric, rest.iters + 1, rest.state⟩

/-- Ghost-instrumented copy of `abMinLoopS`. -/
def abMinLoopI {P : Type} (step : XInt → XInt → BoardState P → IRes P) :
    List Move → XInt → XInt → XInt → BoardState P → ILoopRes P
  | [], _alpha, _beta, acc, s => ⟨acc, 0, 0, s⟩
  | mv :: ms, alpha, beta, acc, s =>
      let s1 := pushB s mv
      let r := step alpha beta s1
      let s2 := popB r.state
      let acc2 := XInt.min acc r.value
      let beta2 := XInt.min beta r.value
      if XInt.le beta2 alpha then ⟨acc2, r.metric, 1, s2⟩
      else
        let rest := abMinLoopI step ms alpha beta2 acc2 s2
        ⟨rest.value, Nat.max r.metric rest.metric, rest.iters + 1, rest.state⟩

/-- Ghost-instrumented copy of `minimaxHelperS`: the metric of a node is
the larger of its own iteration count and its children's metrics. -/
def minimaxHelperI {P : Type} (O : Oracle P) :
    Nat → Bool → XInt → XInt → BoardState P → IRes P
  | 0, _maxim, _alpha, _beta, s => ⟨.fin (evaluatePosition O (cur O s)), 0, s⟩
  | d + 1, maxim, alpha, beta, s =>
      if O.isGameOver (cur O s) then ⟨.fin (evaluatePosition O (cur O s)), 0, s⟩
      else
        let ms := (O.legalMoves (cur O s)).take 8
        if maxim then
          let r := abMaxLoopI (fun a b s' => minimaxHelperI O d false a b s') ms alpha beta XInt.negInf s
          ⟨r.value, Nat.max r.iters r.metric, r.state⟩
        else
          let r := abMinLoopI (fun a b s' => minimaxHelperI O d true a b s') ms alpha beta XInt.posInf s
          ⟨r.value, Nat.max r.iters r.metric, r.state⟩

/-- Result of the instrumented root loop: best score and move, the helper
metric (maximum moves examined at any non-root node), the number of root
iterations, and the final board. -/
structure IRootRes (P : Type) where
  best : XInt
  bestMove : Option Move
  metric : Nat
  rootIters : Nat
  state : BoardState P

/-- Ghost-instrumented copy of `minimaxRootLoop`: also counts the root
iterations (one per legal move, the root never breaks). -/
def minimaxRootLoopI {P : Type} (O : Oracle P) (depth : Nat) :
    List Move → XInt → Option Move → BoardState P → IRootRes P
  | [], best, bm, s => ⟨best, bm, 0, 0, s⟩
  | mv :: ms, best, bm, s =>
      let s1 := pushB s mv
      let own := evaluatePosition O (cur O s1)
      let r := minimaxHelperI O (depth - 1) false XInt.negInf XInt.posInf s1
      let s2 := popB r.state
      let score := finSub own r.value
      let rest :=
        if XInt.lt best score then minimaxRootLoopI O depth ms score (some mv) s2
        else minimaxRootLoopI O depth ms best bm s2
      ⟨rest.best, rest.bestMove, Nat.max r.metric rest.metric, rest.rootIters + 1, rest.state⟩

/-- The selection `_find_critical_moves` produces, expressed as a pure
function of the current position: first mating move, else first move
meeting the engine's mate-in-2 qualification, else (when in check) the
first move that does not give check, else the material check. -/
def criticalResult {P : Type} (O : Oracle P) (p : P) (ms : List Move) : Option Choice :=
  match (ms.find? (fun m => O.isCheckmate (O.push p m))).map (mateChoice O p) with
  | some c => some c
  | none =>
    match (ms.find? (codeQualifiesB O p)).map (mate2Choice O p) with
    | some c => some c
    | none =>
      match (if O.isCheck p then
              (ms.find? (fun m => !(O.isCheck (O.push p m)))).map (defendChoice O p)
             else none) with
      | some c => some c
      | none => materialCheck O p ms

/-- A message of one of the five first-tier rationales (the four tactical
ones and the positional one), built around the choice's own SAN string. -/
def tierOneMsg (c : Choice) : Prop :=
  c.msg = "AI plays " ++ c.sanStr ++ " - Checkmate!" ∨
  c.msg = "AI plays " ++ c.sanStr ++ " - Forced mate in 2!" ∨
  c.msg = "AI plays " ++ c.sanStr ++ " - Defending!" ∨
  c.msg = "AI plays " ++ c.sanStr ++ " - Wins material!" ∨
  c.msg = "AI plays " ++ c.sanStr ++ " - Positional advantage!"

/-! ## Concrete oracle instances

Small finite instances of the Rules Oracle used to evaluate the theorems
on explicit inputs.  Positions are natural numbers; `0` is always the
root position of the scenario. -/

/-- A mate-in-one scenario: from position `0` the single legal move leads
to position `1`, which is checkmate. -/
def TMate : Oracle Nat where
  legalMoves := fun p => if p = 0 then [⟨12, 28, none⟩] else []
  push := fun p _ => p + 1
  isCheckmate := fun p => decide (p = 1)
  isStalemate := fun _ => false
  isInsufficientMaterial := fun _ => false
  isCheck := fun _ => false
  isGameOver := fun p => decide (p ≠ 0)
  isCapture := fun _ _ => false
  pieceAt := fun _ _ => none
  attacks := fun _ _ => []
  san := fun _ _ => "Qd8"
  parseSan := fun _ _ => none
  fenPlacement := fun _ => ""
  turn := fun _ => true
  isEnPassant := fun _ _ => false
  capturedPieceType := fun _ _ => none

/-- A quiet scenario: from position `0` the single legal move leads to
position `1`, where the opponent has no reply but is *not* mated (a
stalemating move).  No checks, no captures. -/
def TQuiet : Oracle Nat where
  legalMoves := fun p => if p = 0 then [⟨12, 28, none⟩] else []
  push := fun p _ => p + 1
  isCheckmate := fun _ => false
  isStalemate := fun p => decide (p = 1)
  isInsufficientMaterial := fun _ => false
  isCheck := fun _ => false
  isGameOver := fun p => decide (p ≠ 0)
  isCapture := fun _ _ => false
  pieceAt := fun _ _ => none
  attacks := fun _ _ => []
  san := fun _ _ => "Kc6"
  parseSan := fun _ _ => none
  fenPlacement := fun _ => ""
  turn := fun _ => true
  isEnPassant := fun _ _ => false
  capturedPieceType := fun _ _ => none

/-- The en-passant move of the `TEp` scenario: a pawn from `a5` (32) to
`b6` (41). -/
def epMv : Move := ⟨32, 41, none⟩

/-- An en-passant scenario: `epMv` is a capture whose captured piece (a
pawn) does not stand on the destination square; the destination square is
empty. -/
def TEp : Oracle Nat where
  legalMoves := fun p => if p = 0 then [epMv] else []
  push := fun p _ => p + 1
  isCheckmate := fun _ => false
  isStalemate := fun _ => false
  isInsufficientMaterial := fun _ => false
  isCheck := fun _ => false
  isGameOver := fun p => decide (p ≠ 0)
  isCapture := fun _ mv => decide (mv = epMv)
  pieceAt := fun _ _ => none
  attacks := fun _ _ => []
  san := fun _ _ => "axb6"
  parseSan := fun _ _ => none
  fenPlacement := fun _ => ""
  turn := fun _ => true
  isEnPassant := fun _ mv => decide (mv = epMv)
  capturedPieceType := fun _ mv => if mv = epMv then some PieceType.pawn else none

/-- A development scenario for the positional bonuses: a black knight
stands on `g8` (62); the board is otherwise irrelevant. -/
def TDev : Oracle Nat where
  legalMoves := fun p => if p = 0 then [⟨62, 45, none⟩] else []
  push := fun p _ => p + 1
  isCheckmate := fun _ => false
  isStalemate := fun _ => false
  isInsufficientMaterial := fun _ => false
  isCheck := fun _ => false
  isGameOver := fun _ => false
  isCapture := fun _ _ => false
  pieceAt := fun p sq => if p = 0 ∧ sq = 62 then some ⟨PieceType.knight, false⟩ else none
  attacks := fun _ _ => []
  san := fun _ _ => "Nf6"
  parseSan := fun _ _ => none
  fenPlacement := fun _ => ""
  turn := fun _ => false
  isEnPassant := fun _ _ => false
  capturedPieceType := fun _ _ => none

/-- A densely branching scenario for the Bounded Search: position `0` has
nine legal moves leading to positions `1 … 9`; each of those has a single
reply leading to the terminal position `p + 100`; the reply to move 9
loses a queen (square 0 of position `109` holds a black queen), so the
ninth root move scores strictly best. -/
def TWide : Oracle Nat where
  legalMoves := fun p =>
    if p = 0 then (List.range 9).map (fun i => ⟨i + 1, 0, none⟩)
    else if 1 ≤ p ∧ p ≤ 9 then [⟨10, 0, none⟩] else []
  push := fun p mv => if p = 0 then mv.fromSq else p + 100
  isCheckmate := fun _ => false
  isStalemate := fun _ => false
  isInsufficientMaterial := fun _ => false
  isCheck := fun _ => false
  isGameOver := fun p => decide (100 ≤ p)
  isCapture := fun _ _ => false
  pieceAt := fun p sq => if p = 109 ∧ sq = 0 then some ⟨PieceType.queen, false⟩ else none
  attacks := fun _ _ => []
  san := fun _ _ => "X"
  parseSan := fun _ _ => none
  fenPlacement := fun _ => ""
  turn := fun _ => true
  isEnPassant := fun _ _ => false
  capturedPieceType := fun _ _ => none

/-- A cross-check scenario for the defense sub-check: the side to move is
in check at position `0`; the first legal move (to position `1`) answers
the check with a counter-check, the second (to position `2`) does not.
After either move the opponent has one reply, and no mate is ever on the
board. -/
def TCross : Oracle Nat where
  legalMoves := fun p =>
    if p = 0 then [⟨8, 16, none⟩, ⟨9, 17, none⟩]
    else if p = 1 ∨ p = 2 then [⟨0, 1, none⟩] else []
  push := fun p mv => if p = 0 then (if mv.fromSq = 8 then 1 else 2) else p + 10
  isCheckmate := fun _ => false
  isStalemate := fun _ => false
  isInsufficientMaterial := fun _ => false
  isCheck := fun p => decide (p = 0 ∨ p = 1)
  isGameOver := fun p => decide (11 ≤ p)
  isCapture := fun _ _ => false
  pieceAt := fun _ _ => none
  attacks := fun _ _ => []
  san := fun p _ => if p = 0 then "Ke2" else "Qe7"
  parseSan := fun _ _ => none
  fenPlacement := fun _ => ""
  turn := fun _ => true
  isEnPassant := fun _ _ => false
  capturedPieceType := fun _ _ => none

/-! ## Basic lemmas about the board model and the sort -/

theorem popB_pushB {P : Type} (s : BoardState P) (m : Move) : popB (pushB s m) = s := by
  simp [popB, pushB]

theorem cur_pushB {P : Type} (O : Oracle P) (s : BoardState P) (m : Move) :
    cur O (pushB s m) = O.push (cur O s) m := by
  simp [cur, pushB]

theorem insertDesc_head? {α : Type} (x : α × Int) (l : List (α × Int)) :
    (insertDesc x l).head? =
      match l.head? with
      | none => some x
      | some y => if x.2 < y.2 then some y else some x := by
  cases l with
  | nil => rfl
  | cons y ys =>
      by_cases h : x.2 < y.2 <;> simp [insertDesc, h]

theorem head?_pySortRev {α : Type} (l : List (α × Int)) :
    (pySortRev l).head? = firstMaxList l := by
  induction l with
  | nil => rfl
  | cons x xs ih =>
      rw [pySortRev, insertDesc_head?, ih, firstMaxList]

theorem mem_insertDesc {α : Type} (x y : α × Int) (l : List (α × Int)) :
    y ∈ insertDesc x l ↔ y = x ∨ y ∈ l := by
  induction l with
  | nil => simp [insertDesc]
  | cons z zs ih =>
      by_cases h : x.2 < z.2
      · simp [insertDesc, h, ih]
        tauto
      · simp [insertDesc, h]

theorem mem_pySortRev {α : Type} (y : α × Int) (l : List (α × Int)) :
    y ∈ pySortRev l ↔ y ∈ l := by
  induction l with
  | nil => simp [pySortRev]
  | cons x xs ih => simp [pySortRev, mem_insertDesc, ih]

theorem insertDesc_const {α : Type} (k : Int) (x : α × Int) (l : List (α × Int))
    (hx : x.2 = k) (hl : ∀ y ∈ l, y.2 = k) : insertDesc x l = x :: l := by
  cases l with
  | nil => rfl
  | cons y ys =>
      have hy : y.2 = k := hl y (by simp)
      simp [insertDesc, hx, hy]

theorem pySortRev_const {α : Type} (k : Int) (l : List (α × Int))
    (hl : ∀ y ∈ l, y.2 = k) : pySortRev l = l := by
  induction l with
  | nil => rfl
  | cons x xs ih =>
      have hxs : ∀ y ∈ xs, y.2 = k := fun y hy => hl y (by simp [hy])
      rw [pySortRev, ih hxs]
      exact insertDesc_const k x xs (hl x (by simp)) hxs

theorem head?_filterMap_ite {α β : Type} (p : α → Bool) (f : α → β) (l : List α) :
    (l.filterMap (fun a => if p a then some (f a) else none)).head? = (l.find? p).map f := by
  induction l with
  | nil => rfl
  | cons a as ih =>
      by_cases h : p a
      · simp [List.filterMap_cons, h, List.find?_cons_of_pos]
      · simp [List.filterMap_cons, h, List.find?_cons_of_neg, ih]

theorem firstMaxList_mem {α : Type} {l : List (α × Int)} {x : α × Int}
    (h : firstMaxList l = some x) : x ∈ l := by
  have h1 : (pySortRev l).head? = some x := by rw [head?_pySortRev]; exact h
  have h2 : x ∈ pySortRev l := by
    cases hp : pySortRev l with
    | nil => rw [hp] at h1; simp at h1
    | cons a as =>
        rw [hp] at h1
        simp at h1
        simp [hp, h1]
  exact (mem_pySortRev x l).mp h2

/-! ## Characterizations of the tactical scanner's loops -/

theorem immediateMateLoop_eq {P : Type} (O : Oracle P) (ms : List Move) (s : BoardState P) :
    immediateMateLoop O ms s =
      ((ms.find? (fun m => O.isCheckmate (O.push (cur O s) m))).map (mateChoice O (cur O s)), s) := by
  induction ms generalizing s with
  | nil => rfl
  | cons m rest ih =>
      by_cases h : O.isCheckmate (O.push (cur O s) m) = true
      · simp [immediateMateLoop, cur_pushB, h, popB_pushB, List.find?_cons_of_pos, mateChoice]
      · simp only [immediateMateLoop, cur_pushB, h, popB_pushB, Bool.false_eq_true, if_false,
          List.find?_cons_of_neg, ih, Bool.not_eq_true]
        rw [List.find?_cons_of_neg]
        simpa using h

theorem hasMateLoop_eq {P : Type} (O : Oracle P) (ms : List Move) (s : BoardState P) :
    hasMateLoop O ms s = (ms.any (fun a => O.isCheckmate (O.push (cur O s) a)), s) := by
  induction ms generalizing s with
  | nil => rfl
  | cons a rest ih =>
      by_cases h : O.isCheckmate (O.push (cur O s) a) = true
      · simp [hasMateLoop, cur_pushB, h, popB_pushB]
      · simp [hasMateLoop, cur_pushB, h, popB_pushB, ih]

theorem allRepliesMatedLoop_eq {P : Type} (O : Oracle P) (rs : List Move) (s : BoardState P) :
    allRepliesMatedLoop O rs s =
      (rs.all (fun r => (O.legalMoves (O.push (cur O s) r)).any
        (fun a => O.isCheckmate (O.push (O.push (cur O s) r) a))), s) := by
  induction rs generalizing s with
  | nil => rfl
  | cons r rest ih =>
      by_cases h : (O.legalMoves (O.push (cur O s) r)).any
          (fun a => O.isCheckmate (O.push (O.push (cur O s) r) a)) = true
      · simp [allRepliesMatedLoop, hasMateLoop_eq, cur_pushB, popB_pushB, h, ih]
      · simp [allRepliesMatedLoop, hasMateLoop_eq, cur_pushB, popB_pushB, h]

theorem mateIn2Loop_cons {P : Type} (O : Oracle P) (m : Move) (rest : List Move)
    (s : BoardState P) :
    mateIn2Loop O (m :: rest) s =
      if codeQualifiesB O (cur O s) m then (some (mate2Choice O (cur O s) m), s)
      else mateIn2Loop O rest s := by
  rw [mateIn2Loop]
  simp only [allRepliesMatedLoop_eq, popB_pushB, cur_pushB]
  rw [Bool.and_comm]
  rfl

theorem mateIn2Loop_eq {P : Type} (O : Oracle P) (ms : List Move) (s : BoardState P) :
    mateIn2Loop O ms s =
      ((ms.find? (codeQualifiesB O (cur O s))).map (mate2Choice O (cur O s)), s) := by
  induction ms with
  | nil => rfl
  | cons m rest ih =>
      rw [mateIn2Loop_cons]
      by_cases h : codeQualifiesB O (cur O s) m = true
      · rw [List.find?_cons_of_pos _ h]
        simp [h]
      · rw [List.find?_cons_of_neg]
        · simp [h, ih]
        · simp [h]

theorem defenseLoop_eq {P : Type} (O : Oracle P) (ms : List Move) (s : BoardState P) :
    defenseLoop O ms s =
      (ms.filterMap (fun m =>
        if !(O.isCheck (O.push (cur O s) m)) then some (m, (0 : Int)) else none), s) := by
  induction ms generalizing s with
  | nil => rfl
  | cons m rest ih =>
      by_cases h : O.isCheck (O.push (cur O s) m) = true
      · simp [defenseLoop, cur_pushB, popB_pushB, h, ih, List.filterMap_cons]
      · simp [defenseLoop, cur_pushB, popB_pushB, h, ih, List.filterMap_cons,
          evaluateKingSafety]

theorem defenseCheck_eq {P : Type} (O : Oracle P) (ms : List Move) (s : BoardState P) :
    defenseCheck O ms s =
      (if O.isCheck (cur O s) then
        (ms.find? (fun m => !(O.isCheck (O.push (cur O s) m)))).map (defendChoice O (cur O s))
       else none, s) := by
  by_cases hc : O.isCheck (cur O s) = true
  · rw [defenseCheck]
    simp only [hc, if_true, defenseLoop_eq]
    have hkey : ∀ y ∈ ms.filterMap (fun m =>
        if !(O.isCheck (O.push (cur O s) m)) then some (m, (0 : Int)) else none), y.2 = 0 := by
      intro y hy
      rcases List.mem_filterMap.mp hy with ⟨a, _, hfa⟩
      split at hfa
      · injection hfa with h2
        subst h2
        rfl
      · exact absurd hfa (by simp)
    rw [pySortRev_const 0 _ hkey]
    have hh := head?_filterMap_ite (fun m => !(O.isCheck (O.push (cur O s) m)))
      (fun m => (m, (0 : Int))) ms
    cases hf : ms.find? (fun m => !(O.isCheck (O.push (cur O s) m))) with
    | none =>
        rw [hf] at hh
        simp only [Option.map_none'] at hh
        cases hfm : ms.filterMap (fun m =>
            if !(O.isCheck (O.push (cur O s) m)) then some (m, (0 : Int)) else none) with
        | nil => simp
        | cons hd tl => rw [hfm] at hh; simp at hh
    | some m =>
        rw [hf] at hh
        simp only [Option.map_some'] at hh
        cases hfm : ms.filterMap (fun m =>
            if !(O.isCheck (O.push (cur O s) m)) then some (m, (0 : Int)) else none) with
        | nil => rw [hfm] at hh; simp at hh
        | cons hd tl =>
            rw [hfm] at hh
            simp only [List.head?_cons, Option.some.injEq] at hh
            subst hh
            simp [defendChoice]
  · rw [defenseCheck]
    simp [hc]

theorem materialCheck_eq {P : Type} (O : Oracle P) (p : P) (ms : List Move) :
    materialCheck O p ms =
      (firstMaxList (tacticalMovesList O p ms)).map (fun x => winsChoice O p x.1) := by
  rw [materialCheck]
  have hh := head?_pySortRev (tacticalMovesList O p ms)
  cases hf : firstMaxList (tacticalMovesList O p ms) with
  | none =>
      rw [hf] at hh
      cases hps : pySortRev (tacticalMovesList O p ms) with
      | nil => simp
      | cons hd tl => rw [hps] at hh; simp at hh
  | some x =>
      rw [hf] at hh
      cases hps : pySortRev (tacticalMovesList O p ms) with
      | nil => rw [hps] at hh; simp at hh
      | cons hd tl =>
          rw [hps] at hh
          simp only [List.head?_cons, Option.some.injEq] at hh
          subst hh
          simp [winsChoice]

theorem positionalLoop_eq {P : Type} (O : Oracle P) (ms : List Move) (s : BoardState P) :
    positionalLoop O ms s = (ms.map (fun mv => (mv, positionalMoveScore O s mv)), s) := by
  induction ms generalizing s with
  | nil => rfl
  | cons mv rest ih => simp [positionalLoop, popB_pushB, ih]

theorem evaluatePositionalMoves_eq {P : Type} (O : Oracle P) (ms : List Move) (s : BoardState P) :
    evaluatePositionalMoves O ms s =
      ((firstMaxList (ms.map (fun mv => (mv, positionalMoveScore O s mv)))).map
          (fun x => posChoice O (cur O s) x.1), s) := by
  rw [evaluatePositionalMoves]
  simp only [positionalLoop_eq]
  have hh := head?_pySortRev (ms.map (fun mv => (mv, positionalMoveScore O s mv)))
  cases hf : firstMaxList (ms.map (fun mv => (mv, positionalMoveScore O s mv))) with
  | none =>
      rw [hf] at hh
      cases hps : pySortRev (ms.map (fun mv => (mv, positionalMoveScore O s mv))) with
      | nil => simp [hps]
      | cons hd tl => rw [hps] at hh; simp at hh
  | some x =>
      rw [hf] at hh
      cases hps : pySortRev (ms.map (fun mv => (mv, positionalMoveScore O s mv))) with
      | nil => rw [hps] at hh; simp at hh
      | cons hd tl =>
          rw [hps] at hh
          simp only [List.head?_cons, Option.some.injEq] at hh
          subst hh
          simp [hps, posChoice]

theorem findCriticalMoves_eq {P : Type} (O : Oracle P) (ms : List Move) (s : BoardState P) :
    findCriticalMoves O ms s = (criticalResult O (cur O s) ms, s) := by
  rw [findCriticalMoves, criticalResult, immediateMateLoop_eq]
  cases h1 : (ms.find? (fun m => O.isCheckmate (O.push (cur O s) m))).map (mateChoice O (cur O s)) with
  | some c => rfl
  | none =>
      dsimp only
      rw [mateIn2Loop_eq]
      cases h2 : (ms.find? (codeQualifiesB O (cur O s))).map (mate2Choice O (cur O s)) with
      | some c => rfl
      | none =>
          dsimp only
          rw [defenseCheck_eq]
          cases h3 : (if O.isCheck (cur O s) then
              (ms.find? (fun m => !(O.isCheck (O.push (cur O s) m)))).map
                (defendChoice O (cur O s))
             else none) with
          | some c => rfl
          | none => rfl

/-! ## State preservation and instrumentation of the Bounded Search -/

theorem abMaxLoopS_state {P : Type} (step : XInt → XInt → BoardState P → XInt × BoardState P)
    (hstep : ∀ a b s', (step a b s').2 = s') (ms : List Move) (alpha beta acc : XInt)
    (s : BoardState P) : (abMaxLoopS step ms alpha beta acc s).2 = s := by
  induction ms generalizing alpha beta acc s with
  | nil => rfl
  | cons mv rest ih =>
      rw [abMaxLoopS]
      simp only [hstep, popB_pushB]
      split
      · rfl
      · exact ih _ _ _ _

theorem abMinLoopS_state {P : Type} (step : XInt → XInt → BoardState P → XInt × BoardState P)
    (hstep : ∀ a b s', (step a b s').2 = s') (ms : List Move) (alpha beta acc : XInt)
    (s : BoardState P) : (abMinLoopS step ms alpha beta acc s).2 = s := by
  induction ms generalizing alpha beta acc s with
  | nil => rfl
  | cons mv rest ih =>
      rw [abMinLoopS]
      simp only [hstep, popB_pushB]
      split
      · rfl
      · exact ih _ _ _ _

theorem minimaxHelperS_state {P : Type} (O : Oracle P) (d : Nat) (maxim : Bool)
    (alpha beta : XInt) (s : BoardState P) : (minimaxHelperS O d maxim alpha beta s).2 = s := by
  induction d generalizing maxim alpha beta s with
  | zero => rfl
  | succ d ih =>
      rw [minimaxHelperS]
      split
      · rfl
      · split
        · exact abMaxLoopS_state _ (fun a b s' => ih false a b s') _ _ _ _ _
        · exact abMinLoopS_state _ (fun a b s' => ih true a b s') _ _ _ _ _

theorem minimaxRootLoop_state {P : Type} (O : Oracle P) (depth : Nat) (ms : List Move)
    (best : XInt) (bm : Option Move) (s : BoardState P) :
    (minimaxRootLoop O depth ms best bm s).2 = s := by
  induction ms generalizing best bm s with
  | nil => rfl
  | cons mv rest ih =>
      rw [minimaxRootLoop]
      simp only [minimaxHelperS_state, popB_pushB]
      split
      · exact ih _ _ _
      · exact ih _ _ _

theorem minimaxEvaluation_state {P : Type} (O : Oracle P) (ms : List Move) (depth rnd : Nat)
    (s : BoardState P) : (minimaxEvaluation O ms depth rnd s).2 = s := by
  rw [minimaxEvaluation]
  have hr := minimaxRootLoop_state O depth ms XInt.negInf none s
  split
  · simpa using hr
  · split
    · simpa using hr
    · simpa using hr

theorem abMaxLoopI_corr {P : Type}
    (stepI : XInt → XInt → BoardState P → IRes P)
    (stepS : XInt → XInt → BoardState P → XInt × BoardState P)
    (hstep : ∀ a b s', (stepI a b s').value = (stepS a b s').1
      ∧ (stepI a b s').state = (stepS a b s').2) :
    ∀ (ms : List Move) (alpha beta acc : XInt) (s : BoardState P),
      (abMaxLoopI stepI ms alpha beta acc s).value = (abMaxLoopS stepS ms alpha beta acc s).1
      ∧ (abMaxLoopI stepI ms alpha beta acc s).state = (abMaxLoopS stepS ms alpha beta acc s).2 := by
  intro ms
  induction ms with
  | nil => intro alpha beta acc s; exact ⟨rfl, rfl⟩
  | cons mv rest ih =>
      intro alpha beta acc s
      simp only [abMaxLoopI, abMaxLoopS, (hstep alpha beta (pushB s mv)).1,
        (hstep alpha beta (pushB s mv)).2]
      by_cases hc : XInt.le beta
          (XInt.max alpha (stepS alpha beta (pushB s mv)).1) = true
      · simp [if_pos hc]
      · simp only [if_neg hc]
        exact ih _ _ _ _

theorem abMinLoopI_corr {P : Type}
    (stepI : XInt → XInt → BoardState P → IRes P)
    (stepS : XInt → XInt → BoardState P → XInt × BoardState P)
    (hstep : ∀ a b s', (stepI a b s').value = (stepS a b s').1
      ∧ (stepI a b s').state = (stepS a b s').2) :
    ∀ (ms : List Move) (alpha beta acc : XInt) (s : BoardState P),
      (abMinLoopI stepI ms alpha beta acc s).value = (abMinLoopS stepS ms alpha beta acc s).1
      ∧ (abMinLoopI stepI ms alpha beta acc s).state = (abMinLoopS stepS ms alpha beta acc s).2 := by
  intro ms
  induction ms with
  | nil => intro alpha beta acc s; exact ⟨rfl, rfl⟩
  | cons mv rest ih =>
      intro alpha beta acc s
      simp only [abMinLoopI, abMinLoopS, (hstep alpha beta (pushB s mv)).1,
        (hstep alpha beta (pushB s mv)).2]
      by_cases hc : XInt.le
          (XInt.min beta (stepS alpha beta (pushB s mv)).1) alpha = true
      · simp [if_pos hc]
      · simp only [if_neg hc]
        exact ih _ _ _ _

theorem abMaxLoopI_bound {P : Type} (stepI : XInt → XInt → BoardState P → IRes P)
    (hstep : ∀ a b s', (stepI a b s').metric ≤ 8) :
    ∀ (ms : List Move) (alpha beta acc : XInt) (s : BoardState P),
      (abMaxLoopI stepI ms alpha beta acc s).metric ≤ 8
      ∧ (abMaxLoopI stepI ms alpha beta acc s).iters ≤ ms.length := by
  intro ms
  induction ms with
  | nil => intro alpha beta acc s; exact ⟨Nat.zero_le 8, Nat.zero_le _⟩
  | cons mv rest ih =>
      intro alpha beta acc s
      simp only [abMaxLoopI, List.length_cons]
      by_cases hc : XInt.le beta
          (XInt.max alpha (stepI alpha beta (pushB s mv)).value) = true
      · simp only [if_pos hc]
        exact ⟨hstep _ _ _, by omega⟩
      · simp only [if_neg hc]
        refine ⟨Nat.max_le.mpr ⟨hstep _ _ _, (ih _ _ _ _).1⟩, ?_⟩
        have h2 := (ih (XInt.max alpha (stepI alpha beta (pushB s mv)).value) beta
          (XInt.max acc (stepI alpha beta (pushB s mv)).value)
          (popB (stepI alpha beta (pushB s mv)).state)).2
        omega

theorem abMinLoopI_bound {P : Type} (stepI : XInt → XInt → BoardState P → IRes P)
    (hstep : ∀ a b s', (stepI a b s').metric ≤ 8) :
    ∀ (ms : List Move) (alpha beta acc : XInt) (s : BoardState P),
      (abMinLoopI stepI ms alpha beta acc s).metric ≤ 8
      ∧ (abMinLoopI stepI ms alpha beta acc s).iters ≤ ms.length := by
  intro ms
  induction ms with
  | nil => intro alpha beta acc s; exact ⟨Nat.zero_le 8, Nat.zero_le _⟩
  | cons mv rest ih =>
      intro alpha beta acc s
      simp only [abMinLoopI, List.length_cons]
      by_cases hc : XInt.le
          (XInt.min beta (stepI alpha beta (pushB s mv)).value) alpha = true
      · simp only [if_pos hc]
        exact ⟨hstep _ _ _, by omega⟩
      · simp only [if_neg hc]
        refine ⟨Nat.max_le.mpr ⟨hstep _ _ _, (ih _ _ _ _).1⟩, ?_⟩
        have h2 := (ih alpha (XInt.min beta (stepI alpha beta (pushB s mv)).value)
          (XInt.min acc (stepI alpha beta (pushB s mv)).value)
          (popB (stepI alpha beta (pushB s mv)).state)).2
        omega

theorem minimaxHelperI_corr {P : Type} (O : Oracle P) (d : Nat) :
    ∀ (maxim : Bool) (alpha beta : XInt) (s : BoardState P),
      (minimaxHelperI O d maxim alpha beta s).value = (minimaxHelperS O d maxim alpha beta s).1
      ∧ (minimaxHelperI O d maxim alpha beta s).state = (minimaxHelperS O d maxim alpha beta s).2 := by
  induction d with
  | zero => intro maxim alpha beta s; exact ⟨rfl, rfl⟩
  | succ d ih =>
      intro maxim alpha beta s
      rw [minimaxHelperI, minimaxHelperS]
      split
      · exact ⟨rfl, rfl⟩
      · split
        · exact abMaxLoopI_corr _ _ (fun a b s' => ih false a b s') _ _ _ _ _
        · exact abMinLoopI_corr _ _ (fun a b s' => ih true a b s') _ _ _ _ _

theorem minimaxHelperI_metric {P : Type} (O : Oracle P) (d : Nat) :
    ∀ (maxim : Bool) (alpha beta : XInt) (s : BoardState P),
      (minimaxHelperI O d maxim alpha beta s).metric ≤ 8 := by
  induction d with
  | zero => intro maxim alpha beta s; exact Nat.zero_le 8
  | succ d ih =>
      intro maxim alpha beta s
      rw [minimaxHelperI]
      split
      · exact Nat.zero_le 8
      · have hlen : ((O.legalMoves (cur O s)).take 8).length ≤ 8 := by
          rw [List.length_take]
          omega
        split
        · have hb := abMaxLoopI_bound _ (fun a b s' => ih false a b s')
            ((O.legalMoves (cur O s)).take 8) alpha beta XInt.negInf s
          exact Nat.max_le.mpr ⟨le_trans hb.2 hlen, hb.1⟩
        · have hb := abMinLoopI_bound _ (fun a b s' => ih true a b s')
            ((O.legalMoves (cur O s)).take 8) alpha beta XInt.posInf s
          exact Nat.max_le.mpr ⟨le_trans hb.2 hlen, hb.1⟩

theorem minimaxRootLoopI_corr {P : Type} (O : Oracle P) (depth : Nat) :
    ∀ (ms : List Move) (best : XInt) (bm : Option Move) (s : BoardState P),
      (minimaxRootLoopI O depth ms best bm s).best = (minimaxRootLoop O depth ms best bm s).1.1
      ∧ (minimaxRootLoopI O depth ms best bm s).bestMove = (minimaxRootLoop O depth ms best bm s).1.2
      ∧ (minimaxRootLoopI O depth ms best bm s).state = (minimaxRootLoop O depth ms best bm s).2
      ∧ (minimaxRootLoopI O depth ms best bm s).rootIters = ms.length
      ∧ (minimaxRootLoopI O depth ms best bm s).metric ≤ 8 := by
  intro ms
  induction ms with
  | nil => intro best bm s; exact ⟨rfl, rfl, rfl, rfl, Nat.zero_le 8⟩
  | cons mv rest ih =>
      intro best bm s
      have hc := minimaxHelperI_corr O (depth - 1) false XInt.negInf XInt.posInf (pushB s mv)
      simp only [minimaxRootLoopI, minimaxRootLoop, hc.1, hc.2, List.length_cons]
      by_cases h : XInt.lt best (finSub (evaluatePosition O (cur O (pushB s mv)))
          (minimaxHelperS O (depth - 1) false XInt.negInf XInt.posInf (pushB s mv)).1) = true
      · simp only [if_pos h]
        refine ⟨(ih _ _ _).1, (ih _ _ _).2.1, (ih _ _ _).2.2.1, ?_, ?_⟩
        · rw [(ih _ _ _).2.2.2.1]
        · exact Nat.max_le.mpr
            ⟨minimaxHelperI_metric O (depth - 1) false _ _ _, (ih _ _ _).2.2.2.2⟩
      · simp only [if_neg h]
        refine ⟨(ih _ _ _).1, (ih _ _ _).2.1, (ih _ _ _).2.2.1, ?_, ?_⟩
        · rw [(ih _ _ _).2.2.2.1]
        · exact Nat.max_le.mpr
            ⟨minimaxHelperI_metric O (depth - 1) false _ _ _, (ih _ _ _).2.2.2.2⟩

/-! ## Orchestrator-level lemmas -/

theorem getOpeningBookMove_state {P : Type} (O : Oracle P) (ms : List Move) (s : BoardState P) :
    (getOpeningBookMove O ms s).2 = s := by
  rw [getOpeningBookMove]
  split
  · rfl
  · split
    · split <;> rfl
    · rfl

theorem getEndgameMove_state {P : Type} (O : Oracle P) (ms : List Move) (s : BoardState P) :
    (getEndgameMove O ms s).2 = s := by
  rw [getEndgameMove]
  split <;> rfl

theorem firstMaxList_isSome {α : Type} (l : List (α × Int)) (h : l ≠ []) :
    ∃ x, firstMaxList l = some x := by
  cases l with
  | nil => exact absurd rfl h
  | cons a as =>
      rw [firstMaxList]
      cases h2 : firstMaxList as with
      | none => exact ⟨a, rfl⟩
      | some y =>
          by_cases hlt : a.2 < y.2
          · exact ⟨y, if_pos hlt⟩
          · exact ⟨a, if_neg hlt⟩

theorem criticalResult_nil {P : Type} (O : Oracle P) (p : P) :
    criticalResult O p [] = none := by
  rw [criticalResult]
  simp [materialCheck, tacticalMovesList, pySortRev]

theorem getStrategicMove_critical {P : Type} (O : Oracle P) (rnd : Nat) (s : BoardState P)
    (c : Choice) (h : criticalResult O (cur O s) (O.legalMoves (cur O s)) = some c) :
    getStrategicMove O rnd s = (.played c, s) := by
  have hne : (O.legalMoves (cur O s)).isEmpty = false := by
    cases hl : O.legalMoves (cur O s) with
    | nil => rw [hl, criticalResult_nil] at h; cases h
    | cons a as => rfl
  rw [getStrategicMove]
  simp only [hne, Bool.false_eq_true, if_false, findCriticalMoves_eq, h]

theorem getStrategicMove_positional {P : Type} (O : Oracle P) (rnd : Nat) (s : BoardState P)
    (hcrit : criticalResult O (cur O s) (O.legalMoves (cur O s)) = none)
    (x : Move × Int)
    (hpos : firstMaxList ((O.legalMoves (cur O s)).map
      (fun mv => (mv, positionalMoveScore O s mv))) = some x) :
    getStrategicMove O rnd s = (.played (posChoice O (cur O s) x.1), s) := by
  have hne : (O.legalMoves (cur O s)).isEmpty = false := by
    cases hl : O.legalMoves (cur O s) with
    | nil => rw [hl] at hpos; cases hpos
    | cons a as => rfl
  rw [getStrategicMove]
  simp only [hne, Bool.false_eq_true, if_false, findCriticalMoves_eq, hcrit,
    evaluatePositionalMoves_eq, hpos, Option.map_some']

theorem getStrategicMove_noMove {P : Type} (O : Oracle P) (rnd : Nat) (s : BoardState P)
    (h : O.legalMoves (cur O s) = []) :
    getStrategicMove O rnd s = (.noMove, s) := by
  rw [getStrategicMove]
  simp [h]

theorem tacticalMovesList_fst_mem {P : Type} {O : Oracle P} {p : P} {ms : List Move}
    {x : Move × Int} (h : x ∈ tacticalMovesList O p ms) : x.1 ∈ ms := by
  rw [tacticalMovesList] at h
  rcases List.mem_filterMap.mp h with ⟨a, ha, hfa⟩
  dsimp only at hfa
  split at hfa
  · injection hfa with h2
    subst h2
    exact ha
  · exact absurd hfa (by simp)

theorem materialCheck_move_mem {P : Type} {O : Oracle P} {p : P} {ms : List Move} {c : Choice}
    (h : materialCheck O p ms = some c) : c.move ∈ ms := by
  rw [materialCheck_eq] at h
  rcases Option.map_eq_some'.mp h with ⟨x, hx, hc⟩
  subst hc
  exact tacticalMovesList_fst_mem (firstMaxList_mem hx)

theorem criticalResult_move_mem {P : Type} {O : Oracle P} {p : P} {ms : List Move} {c : Choice}
    (h : criticalResult O p ms = some c) : c.move ∈ ms := by
  rw [criticalResult] at h
  cases h1 : (ms.find? (fun m => O.isCheckmate (O.push p m))).map (mateChoice O p) with
  | some c1 =>
      rw [h1] at h
      simp only at h
      rcases Option.map_eq_some'.mp h1 with ⟨m, hfind, hmc⟩
      injection h with hcc
      subst hcc
      rw [← hmc]
      exact List.mem_of_find?_eq_some hfind
  | none =>
      rw [h1] at h
      simp only at h
      cases h2 : (ms.find? (codeQualifiesB O p)).map (mate2Choice O p) with
      | some c2 =>
          rw [h2] at h
          simp only at h
          rcases Option.map_eq_some'.mp h2 with ⟨m, hfind, hmc⟩
          injection h with hcc
          subst hcc
          rw [← hmc]
          exact List.mem_of_find?_eq_some hfind
      | none =>
          rw [h2] at h
          simp only at h
          cases h3 : (if O.isCheck p then
              (ms.find? (fun m => !(O.isCheck (O.push p m)))).map (defendChoice O p)
             else none) with
          | some c3 =>
              rw [h3] at h
              simp only at h
              have h4 : (ms.find? (fun m => !(O.isCheck (O.push p m)))).map (defendChoice O p)
                  = some c3 := by
                by_cases hic : O.isCheck p = true
                · rw [if_pos hic] at h3; exact h3
                · rw [if_neg hic] at h3; cases h3
              rcases Option.map_eq_some'.mp h4 with ⟨m, hfind, hmc⟩
              injection h with hcc
              subst hcc
              rw [← hmc]
              exact List.mem_of_find?_eq_some hfind
          | none =>
              rw [h3] at h
              simp only at h
              exact materialCheck_move_mem h

theorem criticalResult_tierOne {P : Type} {O : Oracle P} {p : P} {ms : List Move} {c : Choice}
    (h : criticalResult O p ms = some c) : tierOneMsg c := by
  rw [criticalResult] at h
  cases h1 : (ms.find? (fun m => O.isCheckmate (O.push p m))).map (mateChoice O p) with
  | some c1 =>
      rw [h1] at h
      simp only at h
      rcases Option.map_eq_some'.mp h1 with ⟨m, _, hmc⟩
      injection h with hcc
      subst hcc
      rw [← hmc]
      exact Or.inl rfl
  | none =>
      rw [h1] at h
      simp only at h
      cases h2 : (ms.find? (codeQualifiesB O p)).map (mate2Choice O p) with
      | some c2 =>
          rw [h2] at h
          simp only at h
          rcases Option.map_eq_some'.mp h2 with ⟨m, _, hmc⟩
          injection h with hcc
          subst hcc
          rw [← hmc]
          exact Or.inr (Or.inl rfl)
      | none =>
          rw [h2] at h
          simp only at h
          cases h3 : (if O.isCheck p then
              (ms.find? (fun m => !(O.isCheck (O.push p m)))).map (defendChoice O p)
             else none) with
          | some c3 =>
              rw [h3] at h
              simp only at h
              have h4 : (ms.find? (fun m => !(O.isCheck (O.push p m)))).map (defendChoice O p)
                  = some c3 := by
                by_cases hic : O.isCheck p = true
                · rw [if_pos hic] at h3; exact h3
                · rw [if_neg hic] at h3; cases h3
              rcases Option.map_eq_some'.mp h4 with ⟨m, _, hmc⟩
              injection h with hcc
              subst hcc
              rw [← hmc]
              exact Or.inr (Or.inr (Or.inl rfl))
          | none =>
              rw [h3] at h
              simp only at h
              rw [materialCheck_eq] at h
              rcases Option.map_eq_some'.mp h with ⟨x, _, hc⟩
              rw [← hc]
              exact Or.inr (Or.inr (Or.inr (Or.inl rfl)))

/-! ## Claim theorems -/

/-- C1: if some legal move gives immediate checkmate, the strategic
selection returns the *first* such move in enumeration order, immediately,
with rationale `Checkmate!` (no scoring, no further tie-break), and the
board is unchanged. -/
theorem claim1_immediate_mate_selected {P : Type} (O : Oracle P) (rnd : Nat) (s : BoardState P)
    (m : Move)
    (h : (O.legalMoves (cur O s)).find? (fun mv => O.isCheckmate (O.push (cur O s) mv)) = some m) :
    getStrategicMove O rnd s = (.played (mateChoice O (cur O s) m), s) := by
  apply getStrategicMove_critical
  rw [criticalResult, h]
  rfl

/-- Witness for C1: the `TMate` scenario has a mating move and the engine
returns it with rationale `Checkmate!`. -/
theorem claim1_immediate_mate_selected_w :
    (TMate.legalMoves (cur TMate ⟨0, []⟩)).find?
        (fun mv => TMate.isCheckmate (TMate.push (cur TMate ⟨0, []⟩) mv)) = some ⟨12, 28, none⟩
    ∧ getStrategicMove TMate 0 ⟨0, []⟩ =
        (.played (mateChoice TMate (cur TMate ⟨0, []⟩) ⟨12, 28, none⟩), ⟨0, []⟩) :=
  ⟨by decide, claim1_immediate_mate_selected TMate 0 ⟨0, []⟩ ⟨12, 28, none⟩ (by decide)⟩

/-- C2: whenever the legal-move list is non-empty, the move the strategic
selection returns is a member of the Oracle-enumerated legal-move list. -/
theorem claim2_returned_move_is_legal {P : Type} (O : Oracle P) (rnd : Nat) (s : BoardState P)
    (h : O.legalMoves (cur O s) ≠ []) :
    ∃ c, (getStrategicMove O rnd s).1 = .played c ∧ c.move ∈ O.legalMoves (cur O s) := by
  cases hcrit : criticalResult O (cur O s) (O.legalMoves (cur O s)) with
  | some c =>
      exact ⟨c, by rw [getStrategicMove_critical O rnd s c hcrit],
        criticalResult_move_mem hcrit⟩
  | none =>
      obtain ⟨x, hx⟩ := firstMaxList_isSome ((O.legalMoves (cur O s)).map
        (fun mv => (mv, positionalMoveScore O s mv))) (by simpa using h)
      refine ⟨posChoice O (cur O s) x.1, ?_, ?_⟩
      · rw [getStrategicMove_positional O rnd s hcrit x hx]
      · show x.1 ∈ O.legalMoves (cur O s)
        have hmem := firstMaxList_mem hx
        rcases List.mem_map.mp hmem with ⟨mv, hmv, hx2⟩
        have hx3 : x.1 = mv := by rw [← hx2]
        rw [hx3]
        exact hmv

/-- Witness for C2 at the `TQuiet` scenario. -/
theorem claim2_returned_move_is_legal_w :
    TQuiet.legalMoves (cur TQuiet ⟨0, []⟩) ≠ []
    ∧ ∃ c, (getStrategicMove TQuiet 0 ⟨0, []⟩).1 = .played c
        ∧ c.move ∈ TQuiet.legalMoves (cur TQuiet ⟨0, []⟩) :=
  ⟨by decide, claim2_returned_move_is_legal TQuiet 0 ⟨0, []⟩ (by decide)⟩

/-- C3: every phase returns the board exactly as it received it — each
exploratory push is paired with a pop on every return path, for the
tactical scanner, the positional evaluator, the opening book, the endgame
specialist and the bounded search. -/
theorem claim3_board_restored_by_every_phase {P : Type} (O : Oracle P) (moves : List Move)
    (s : BoardState P) (depth rnd : Nat) :
    (findCriticalMoves O moves s).2 = s
    ∧ (evaluatePositionalMoves O moves s).2 = s
    ∧ (getOpeningBookMove O moves s).2 = s
    ∧ (getEndgameMove O moves s).2 = s
    ∧ (minimaxEvaluation O moves depth rnd s).2 = s := by
  refine ⟨?_, ?_, getOpeningBookMove_state O moves s, getEndgameMove_state O moves s,
    minimaxEvaluation_state O moves depth rnd s⟩
  · rw [findCriticalMoves_eq]
  · rw [evaluatePositionalMoves_eq]

/-- Counterexample to C4: in the `TQuiet` scenario the only legal move
leaves the opponent without replies while not mating (a stalemating
move), so it qualifies vacuously under the claim's "for every opponent
reply" reading — yet the engine's mate-in-2 sub-check returns no
candidate, because the code additionally requires `opponent_moves` to be
non-empty. -/
theorem claim4_counterexample :
    claimQualifiesB TQuiet 0 ⟨12, 28, none⟩ = true
    ∧ (TQuiet.legalMoves 0).find? (claimQualifiesB TQuiet 0) = some ⟨12, 28, none⟩
    ∧ (mateIn2Loop TQuiet (TQuiet.legalMoves 0) ⟨0, []⟩).1 = none := by
  decide

/-- C4 (amended): in the forced-mate-in-two sub-check a candidate first
move qualifies if and only if the opponent has *at least one* reply and
every reply admits a mating follow-up; the first qualifying move in
enumeration order is returned with rationale `Forced mate in 2!`, and the
board is unchanged. -/
theorem claim4_amended_mate_in_two_qualification {P : Type} (O : Oracle P) (ms : List Move)
    (s : BoardState P) :
    mateIn2Loop O ms s =
      ((ms.find? (codeQualifiesB O (cur O s))).map (mate2Choice O (cur O s)), s) :=
  mateIn2Loop_eq O ms s

/-- The `TEp` scenario's capture fields are rules-coherent. -/
theorem tEpCaptureCoherent : CaptureCoherent TEp := by
  intro p mv
  by_cases h : mv = epMv
  · subst h
    refine ⟨by simp [TEp], fun hep => ?_, fun _ => ⟨by simp [TEp], rfl⟩⟩
    · simp [TEp] at hep
  · refine ⟨by simp [TEp, h], fun _ => by simp [TEp, h], fun hep => ?_⟩
    · simp [TEp, h] at hep

/-- Counterexample to C5: in the rules-coherent `TEp` scenario the
en-passant move is a capture whose captured piece is a pawn (table value
1), but the engine computes gain 0 because the destination square is
empty. -/
theorem claim5_counterexample :
    CaptureCoherent TEp
    ∧ TEp.isCapture 0 epMv = true
    ∧ TEp.capturedPieceType 0 epMv = some PieceType.pawn
    ∧ calculateMaterialGain TEp 0 epMv ≠ specCaptureValue (TEp.capturedPieceType 0 epMv) :=
  ⟨tEpCaptureCoherent, by decide, by decide, by decide⟩

/-- C5 (amended): for a rules-coherent oracle, the computed gain of a
capturing move is the fixed table value of the piece standing on the
destination square — i.e. of the captured piece for ordinary captures,
and 0 for en-passant captures; among moves with gain > 0 the first
maximum-gain one is selected with rationale `Wins material!`. -/
theorem claim5_amended_material_gain {P : Type} (O : Oracle P) (hO : CaptureCoherent O) (p : P)
    (ms : List Move) :
    (∀ mv, O.isCapture p mv = true →
        calculateMaterialGain O p mv =
          (if O.isEnPassant p mv then 0 else specCaptureValue (O.capturedPieceType p mv)))
    ∧ materialCheck O p ms =
        (firstMaxList (tacticalMovesList O p ms)).map (fun x => winsChoice O p x.1) := by
  refine ⟨?_, materialCheck_eq O p ms⟩
  intro mv hcap
  rcases hO p mv with ⟨hco1, hco2, hco3⟩
  by_cases hep : O.isEnPassant p mv = true
  · rw [if_pos hep]
    rcases hco3 hep with ⟨_, hempty⟩
    rw [calculateMaterialGain, if_pos hcap, hempty]
  · have hep' : O.isEnPassant p mv = false := by
      cases hE : O.isEnPassant p mv
      · rfl
      · exact absurd hE hep
    rw [if_neg hep]
    have hcc := hco2 hep'
    cases hpa : O.pieceAt p mv.toSq with
    | none =>
        rw [hpa] at hcc
        rw [hco1, hcc] at hcap
        simp at hcap
    | some pc =>
        rw [hpa] at hcc
        rw [calculateMaterialGain, if_pos hcap, hpa, hcc]
        cases pc with
        | mk t col => cases t <;> rfl

/-- Witness for the amended C5 at the `TEp` scenario: the en-passant
capture's gain evaluates to the amended formula (here 0). -/
theorem claim5_amended_material_gain_w :
    calculateMaterialGain TEp 0 epMv =
      (if TEp.isEnPassant 0 epMv then 0 else specCaptureValue (TEp.capturedPieceType 0 epMv)) :=
  (claim5_amended_material_gain TEp tEpCaptureCoherent 0 []).1 epMv (by decide)

/-- Counterexample to C6: at ply 0, a black knight moving from its
original starting square `g8` (62) gets *no* +25 development bonus from
the code (score 4: piece-square only), while under the claim's
either-side reading it would (score 29). -/
theorem claim6_counterexample :
    positionalMoveScore TDev ⟨0, []⟩ ⟨62, 45, none⟩ = 4
    ∧ claimPositionalMoveScore TDev ⟨0, []⟩ ⟨62, 45, none⟩ = 29
    ∧ positionalMoveScore TDev ⟨0, []⟩ ⟨62, 45, none⟩
        ≠ claimPositionalMoveScore TDev ⟨0, []⟩ ⟨62, 45, none⟩ := by
  decide

/-- C6 (amended): the positional score includes +25 exactly when the ply
count is below 16, the moved piece is a knight or bishop, and its source
square is one of White's back-rank minor squares `b1 g1 c1 f1` (regardless
of the piece's color or which piece type started there), and +50 exactly
when the ply count is below 20, the moved piece is a king, and the
destination is `g1` or `c1` (for either color's king). -/
theorem claim6_amended_development_and_castle_bonuses {P : Type} (O : Oracle P)
    (s : BoardState P) (mv : Move) :
    positionalMoveScore O s mv =
      basePositionalScore O s mv
        + amendedDevBonus s.stack.length (O.pieceAt (cur O s) mv.fromSq) mv
        + amendedKingBonus s.stack.length (O.pieceAt (cur O s) mv.fromSq) mv := by
  rw [positionalMoveScore, basePositionalScore]
  cases hpc : O.pieceAt (cur O s) mv.fromSq with
  | none =>
      dsimp only [amendedDevBonus, amendedKingBonus]
      split_ifs <;> ring1
  | some pc =>
      dsimp only [amendedDevBonus, amendedKingBonus]
      split_ifs <;> first | ring1 | (exfalso; tauto)

/-- Counterexample to C7: in the `TWide` scenario the root position has 9
legal moves and the Bounded Search selects the *ninth* one — the root ply
is not capped at 8 moves, so the search differs from the claim's
root-capped reading, which selects the first move. -/
theorem claim7_counterexample :
    8 < (TWide.legalMoves 0).length
    ∧ (minimaxEvaluation TWide (TWide.legalMoves 0) 3 0 ⟨0, []⟩).1.map Choice.move
        = some ⟨9, 0, none⟩
    ∧ (minimaxEvaluationRootCapped8 TWide (TWide.legalMoves 0) 3 0 ⟨0, []⟩).1.map Choice.move
        = some ⟨1, 0, none⟩ := by
  decide

/-- C7 (amended): the recursive helper of the Bounded Search never
examines more than 8 moves at any node (the instrumented copy computes the
same value and its per-node move-count metric is at most 8), the depth
counter strictly decreases to 0 (the recursion is on the depth), and the
*root* ply examines every legal move (its instrumented iteration count
equals the move-list length). -/
theorem claim7_amended_search_bounds {P : Type} (O : Oracle P) (depth : Nat) (maxim : Bool)
    (alpha beta : XInt) (s : BoardState P) (moves : List Move) :
    ((minimaxHelperI O depth maxim alpha beta s).value
        = (minimaxHelperS O depth maxim alpha beta s).1
      ∧ (minimaxHelperI O depth maxim alpha beta s).metric ≤ 8)
    ∧ ((minimaxRootLoopI O depth moves XInt.negInf none s).best
          = (minimaxRootLoop O depth moves XInt.negInf none s).1.1
      ∧ (minimaxRootLoopI O depth moves XInt.negInf none s).bestMove
          = (minimaxRootLoop O depth moves XInt.negInf none s).1.2
      ∧ (minimaxRootLoopI O depth moves XInt.negInf none s).rootIters = moves.length
      ∧ (minimaxRootLoopI O depth moves XInt.negInf none s).metric ≤ 8) := by
  have hr := minimaxRootLoopI_corr O depth moves XInt.negInf none s
  exact ⟨⟨(minimaxHelperI_corr O depth maxim alpha beta s).1,
      minimaxHelperI_metric O depth maxim alpha beta s⟩,
    hr.1, hr.2.1, hr.2.2.2.1, hr.2.2.2.2⟩

/-- Counterexample to C8: in the `TCross` scenario the side to move is in
check, neither mate sub-check fires, and the *first* legal move (which
escapes the check, as every legal move does, but answers with a
counter-check) is skipped: the engine returns the second move, because the
code's filter keeps only the moves after which `board.is_check()` — i.e.
check *given to the opponent* — is false. -/
theorem claim8_counterexample :
    TCross.isCheck (cur TCross ⟨0, []⟩) = true
    ∧ (TCross.legalMoves 0).head? = some ⟨8, 16, none⟩
    ∧ TCross.isCheck (TCross.push 0 ⟨8, 16, none⟩) = true
    ∧ (immediateMateLoop TCross (TCross.legalMoves 0) ⟨0, []⟩).1 = none
    ∧ (mateIn2Loop TCross (TCross.legalMoves 0) ⟨0, []⟩).1 = none
    ∧ (findCriticalMoves TCross (TCross.legalMoves 0) ⟨0, []⟩).1.map Choice.move
        = some ⟨9, 17, none⟩ := by
  decide

/-- C8 (amended): when the side to move is in check and the two mate
sub-checks find nothing, the engine returns the first legal move *after
which the opponent is not in check* (the code's filter tests whether the
move gives check, not whether it escapes check — legal moves always escape
check), with rationale `Defending!`; the constant king-safety stub makes
the stable sort keep enumeration order, so first-maximum is the first
kept move. -/
theorem claim8_amended_defense_selection {P : Type} (O : Oracle P) (ms : List Move)
    (s : BoardState P) (m : Move)
    (h1 : O.isCheck (cur O s) = true)
    (h2 : ms.find? (fun mv => O.isCheckmate (O.push (cur O s) mv)) = none)
    (h3 : ms.find? (codeQualifiesB O (cur O s)) = none)
    (h4 : ms.find? (fun mv => !(O.isCheck (O.push (cur O s) mv))) = some m) :
    (findCriticalMoves O ms s).1 = some (defendChoice O (cur O s) m) := by
  rw [findCriticalMoves_eq]
  show criticalResult O (cur O s) ms = _
  rw [criticalResult, h2, h3]
  simp only [Option.map_none']
  rw [if_pos h1, h4]
  rfl

/-- Witness for the amended C8 at the `TCross` scenario. -/
theorem claim8_amended_defense_selection_w :
    (findCriticalMoves TCross (TCross.legalMoves 0) ⟨0, []⟩).1
      = some (defendChoice TCross (cur TCross ⟨0, []⟩) ⟨9, 17, none⟩) :=
  claim8_amended_defense_selection TCross (TCross.legalMoves 0) ⟨0, []⟩ ⟨9, 17, none⟩
    (by decide) (by decide) (by decide) (by decide)

/-- C9: the strategic selection answers `noMove` (the
`(None, "No legal moves available")` return) exactly when the legal-move
list is empty — it never guesses a move there and never answers `noMove`
otherwise; and a phase finding no candidate is an ordinary value that
makes the orchestrator use the next phase: when the tactical scanner
returns `none`, the result is the positional evaluator's candidate. -/
theorem claim9_no_move_signal_and_soft_failure {P : Type} (O : Oracle P) (rnd : Nat)
    (s : BoardState P) :
    ((getStrategicMove O rnd s).1 = .noMove ↔ O.legalMoves (cur O s) = [])
    ∧ ((findCriticalMoves O (O.legalMoves (cur O s)) s).1 = none →
        O.legalMoves (cur O s) ≠ [] →
        ∃ c, (evaluatePositionalMoves O (O.legalMoves (cur O s)) s).1 = some c
          ∧ (getStrategicMove O rnd s).1 = .played c) := by
  constructor
  · constructor
    · intro hno
      by_contra hne
      cases hcrit : criticalResult O (cur O s) (O.legalMoves (cur O s)) with
      | some c =>
          rw [getStrategicMove_critical O rnd s c hcrit] at hno
          simp at hno
      | none =>
          obtain ⟨x, hx⟩ := firstMaxList_isSome ((O.legalMoves (cur O s)).map
            (fun mv => (mv, positionalMoveScore O s mv))) (by simpa using hne)
          rw [getStrategicMove_positional O rnd s hcrit x hx] at hno
          simp at hno
    · intro hnil
      rw [getStrategicMove_noMove O rnd s hnil]
  · intro hcritfc hne
    have hcrit : criticalResult O (cur O s) (O.legalMoves (cur O s)) = none := by
      rw [findCriticalMoves_eq] at hcritfc
      exact hcritfc
    obtain ⟨x, hx⟩ := firstMaxList_isSome ((O.legalMoves (cur O s)).map
      (fun mv => (mv, positionalMoveScore O s mv))) (by simpa using hne)
    refine ⟨posChoice O (cur O s) x.1, ?_, ?_⟩
    · rw [evaluatePositionalMoves_eq, hx]
      rfl
    · rw [getStrategicMove_positional O rnd s hcrit x hx]

/-- Witness for C9 at the `TQuiet` scenario: the tactical scanner finds
nothing and the positional evaluator's candidate is returned. -/
theorem claim9_no_move_signal_and_soft_failure_w :
    (findCriticalMoves TQuiet (TQuiet.legalMoves (cur TQuiet ⟨0, []⟩)) ⟨0, []⟩).1 = none
    ∧ TQuiet.legalMoves (cur TQuiet ⟨0, []⟩) ≠ []
    ∧ ∃ c, (evaluatePositionalMoves TQuiet (TQuiet.legalMoves (cur TQuiet ⟨0, []⟩)) ⟨0, []⟩).1
          = some c
        ∧ (getStrategicMove TQuiet 0 ⟨0, []⟩).1 = .played c :=
  ⟨by decide, by decide,
    (claim9_no_move_signal_and_soft_failure TQuiet 0 ⟨0, []⟩).2 (by decide) (by decide)⟩

/-- C10: whenever the legal-move list is non-empty, the positional
evaluator always produces a candidate, so the orchestrator's answer is the
tactical scanner's candidate or, failing that, the positional evaluator's
— the opening book, endgame specialist and bounded search are unreachable,
and every returned message carries one of the five first-tier rationales
(never `Opening theory!`, `Opening principles!`, `Endgame technique!`,
`Deep calculation!` or `Strategic!`). -/
theorem claim10_positional_total_later_phases_unreachable {P : Type} (O : Oracle P) (rnd : Nat)
    (s : BoardState P) (h : O.legalMoves (cur O s) ≠ []) :
    ∃ c, getStrategicMove O rnd s = (.played c, s)
      ∧ (criticalResult O (cur O s) (O.legalMoves (cur O s)) = some c
          ∨ (criticalResult O (cur O s) (O.legalMoves (cur O s)) = none
              ∧ (evaluatePositionalMoves O (O.legalMoves (cur O s)) s).1 = some c))
      ∧ tierOneMsg c := by
  cases hcrit : criticalResult O (cur O s) (O.legalMoves (cur O s)) with
  | some c =>
      exact ⟨c, getStrategicMove_critical O rnd s c hcrit, Or.inl rfl,
        criticalResult_tierOne hcrit⟩
  | none =>
      obtain ⟨x, hx⟩ := firstMaxList_isSome ((O.legalMoves (cur O s)).map
        (fun mv => (mv, positionalMoveScore O s mv))) (by simpa using h)
      refine ⟨posChoice O (cur O s) x.1, getStrategicMove_positional O rnd s hcrit x hx,
        Or.inr ⟨rfl, ?_⟩, Or.inr (Or.inr (Or.inr (Or.inr rfl)))⟩
      rw [evaluatePositionalMoves_eq, hx]
      rfl

/-- Witness for C10 at the `TMate` scenario (a tactical candidate). -/
theorem claim10_positional_total_later_phases_unreachable_w :
    TMate.legalMoves (cur TMate ⟨0, []⟩) ≠ []
    ∧ ∃ c, getStrategicMove TMate 0 ⟨0, []⟩ = (.played c, ⟨0, []⟩)
        ∧ (criticalResult TMate (cur TMate ⟨0, []⟩) (TMate.legalMoves (cur TMate ⟨0, []⟩))
              = some c
            ∨ (criticalResult TMate (cur TMate ⟨0, []⟩) (TMate.legalMoves (cur TMate ⟨0, []⟩))
                  = none
                ∧ (evaluatePositionalMoves TMate
                    (TMate.legalMoves (cur TMate ⟨0, []⟩)) ⟨0, []⟩).1 = some c))
        ∧ tierOneMsg c :=
  ⟨by decide, claim10_positional_total_later_phases_unreachable TMate 0 ⟨0, []⟩ (by decide)⟩
